import Mathlib

/-!
Shallow embedding of the abra-lang bytecode compiler and virtual machine
(src/abra_core/src/vm/{opcode.rs, compiler.rs, vm.rs}).

Conventions of the embedding:
* Bytes in a chunk are `Nat` values; every write truncates with `% 256`
  (Rust `u8`).  `i64` values are unbounded `Int` (none of the verified
  properties exercises 64-bit overflow); `usize` casts of possibly
  negative `i64`s are taken modulo `2 ^ 64` exactly as Rust `as usize`
  does.  Arithmetic that Rust checks in debug builds (usize subtraction
  underflow, `bindings.len() - 1` on an empty vector) is modelled as an
  explicit panic error, matching the overflow-checked profile.
* Rust panics (`unreachable!()`, slice-index panics, `expect`/`unwrap`)
  are explicit error values, kept distinct from the VM's `InterpretError`
  variants.
* Floating point is outside the model: no `Value::Float` is constructible
  here, so the float-typed VM arms (which pattern-match for floats and
  otherwise hit `unreachable!()`) always take their `unreachable!()` path.
  No verified property concerns floats.
* The source's `chunk.rs` (the `Chunk`/`CompiledModule` container) is not
  part of the provided sources; its operations are modelled from the spec
  (run-length line table, interned append-only constant pool) and
  cross-checked against the expectations hard-coded in compiler.rs's test
  module.
* General recursion over the typed AST is fuel-indexed: every recursive
  call decrements the fuel, and exhaustion is a dedicated error, so any
  fuel larger than the combined size of the nodes reproduces the source's
  structural recursion.
-/

namespace Abra

/-! ## Association-list helpers (for the `HashMap`s of the source) -/

def alookup {α : Type} (k : String) : List (String × α) → Option α
  | [] => none
  | (k', v) :: rest => if k' = k then some v else alookup k rest

/-- Update the (unique) entry with key `k` in place, if present. -/
def aupdate {α : Type} (k : String) (f : α → α) : List (String × α) → List (String × α)
  | [] => []
  | (k', v) :: rest => if k' = k then (k', f v) :: rest else (k', v) :: aupdate k f rest

/-- `HashMap::insert`: replace the entry if the key is present, else add it. -/
def ainsert {α : Type} (k : String) (v : α) : List (String × α) → List (String × α)
  | [] => [(k, v)]
  | (k', v') :: rest => if k' = k then (k', v) :: rest else (k', v') :: ainsert k v rest

/-! ## Opcode (opcode.rs) -/

/-- The instruction set, in the discriminant order of `enum Opcode`. -/
inductive Opcode where
  | Constant | Nil
  | IConst0 | IConst1 | IConst2 | IConst3 | IConst4
  | IAdd | ISub | IMul | IDiv
  | FAdd | FSub | FMul | FDiv
  | IMod | FMod
  | I2F | F2I
  | Invert | StrConcat
  | T | F
  | And | Or
  | Negate | Coalesce
  | LT | LTE | GT | GTE | Eq | Neq
  | OptMk | MapMk | MapLoad
  | ArrMk | ArrLoad | ArrSlc
  | GStore
  | LStore0 | LStore1 | LStore2 | LStore3 | LStore4 | LStore
  | UStore0 | UStore1 | UStore2 | UStore3 | UStore4 | UStore
  | GLoad
  | LLoad0 | LLoad1 | LLoad2 | LLoad3 | LLoad4 | LLoad
  | ULoad0 | ULoad1 | ULoad2 | ULoad3 | ULoad4 | ULoad
  | Jump | JumpIfF | JumpB
  | Invoke
  | ClosureMk | CloseUpvalue | CloseUpvalueAndPop
  | Pop | PopN | Return
  deriving Repr, DecidableEq

/-- The `repr(u8)` discriminant of each opcode (`Opcode as u8`). -/
def Opcode.toByte : Opcode → Nat
  | .Constant => 0 | .Nil => 1
  | .IConst0 => 2 | .IConst1 => 3 | .IConst2 => 4 | .IConst3 => 5 | .IConst4 => 6
  | .IAdd => 7 | .ISub => 8 | .IMul => 9 | .IDiv => 10
  | .FAdd => 11 | .FSub => 12 | .FMul => 13 | .FDiv => 14
  | .IMod => 15 | .FMod => 16
  | .I2F => 17 | .F2I => 18
  | .Invert => 19 | .StrConcat => 20
  | .T => 21 | .F => 22
  | .And => 23 | .Or => 24
  | .Negate => 25 | .Coalesce => 26
  | .LT => 27 | .LTE => 28 | .GT => 29 | .GTE => 30 | .Eq => 31 | .Neq => 32
  | .OptMk => 33 | .MapMk => 34 | .MapLoad => 35
  | .ArrMk => 36 | .ArrLoad => 37 | .ArrSlc => 38
  | .GStore => 39
  | .LStore0 => 40 | .LStore1 => 41 | .LStore2 => 42 | .LStore3 => 43 | .LStore4 => 44
  | .LStore => 45
  | .UStore0 => 46 | .UStore1 => 47 | .UStore2 => 48 | .UStore3 => 49 | .UStore4 => 50
  | .UStore => 51
  | .GLoad => 52
  | .LLoad0 => 53 | .LLoad1 => 54 | .LLoad2 => 55 | .LLoad3 => 56 | .LLoad4 => 57
  | .LLoad => 58
  | .ULoad0 => 59 | .ULoad1 => 60 | .ULoad2 => 61 | .ULoad3 => 62 | .ULoad4 => 63
  | .ULoad => 64
  | .Jump => 65 | .JumpIfF => 66 | .JumpB => 67
  | .Invoke => 68
  | .ClosureMk => 69 | .CloseUpvalue => 70 | .CloseUpvalueAndPop => 71
  | .Pop => 72 | .PopN => 73 | .Return => 74

/-- `impl From<&u8> for Opcode`; bytes above 74 hit `unreachable!()`,
modelled as `none`. -/
def Opcode.ofByte? : Nat → Option Opcode
  | 0 => some .Constant | 1 => some .Nil
  | 2 => some .IConst0 | 3 => some .IConst1 | 4 => some .IConst2
  | 5 => some .IConst3 | 6 => some .IConst4
  | 7 => some .IAdd | 8 => some .ISub | 9 => some .IMul | 10 => some .IDiv
  | 11 => some .FAdd | 12 => some .FSub | 13 => some .FMul | 14 => some .FDiv
  | 15 => some .IMod | 16 => some .FMod
  | 17 => some .I2F | 18 => some .F2I
  | 19 => some .Invert | 20 => some .StrConcat
  | 21 => some .T | 22 => some .F
  | 23 => some .And | 24 => some .Or
  | 25 => some .Negate | 26 => some .Coalesce
  | 27 => some .LT | 28 => some .LTE | 29 => some .GT | 30 => some .GTE
  | 31 => some .Eq | 32 => some .Neq
  | 33 => some .OptMk | 34 => some .MapMk | 35 => some .MapLoad
  | 36 => some .ArrMk | 37 => some .ArrLoad | 38 => some .ArrSlc
  | 39 => some .GStore
  | 40 => some .LStore0 | 41 => some .LStore1 | 42 => some .LStore2
  | 43 => some .LStore3 | 44 => some .LStore4 | 45 => some .LStore
  | 46 => some .UStore0 | 47 => some .UStore1 | 48 => some .UStore2
  | 49 => some .UStore3 | 50 => some .UStore4 | 51 => some .UStore
  | 52 => some .GLoad
  | 53 => some .LLoad0 | 54 => some .LLoad1 | 55 => some .LLoad2
  | 56 => some .LLoad3 | 57 => some .LLoad4 | 58 => some .LLoad
  | 59 => some .ULoad0 | 60 => some .ULoad1 | 61 => some .ULoad2
  | 62 => some .ULoad3 | 63 => some .ULoad4 | 64 => some .ULoad
  | 65 => some .Jump | 66 => some .JumpIfF | 67 => some .JumpB
  | 68 => some .Invoke
  | 69 => some .ClosureMk | 70 => some .CloseUpvalue | 71 => some .CloseUpvalueAndPop
  | 72 => some .Pop | 73 => some .PopN | 74 => some .Return
  | _ => none

/-- `Opcode::num_expected_imms`. -/
def Opcode.numExpectedImms : Opcode → Nat
  | .Constant | .Jump | .JumpIfF | .JumpB | .ArrMk | .MapMk
  | .LStore | .UStore | .PopN | .LLoad | .ULoad => 1
  | .Invoke => 2
  | _ => 0

/-! ## Runtime values (vm.rs's `Value`/`Obj`, heap variants flattened) -/

/-- The runtime value model used by this snapshot's vm.rs/compiler.rs:
`Int`, `Bool`, transient `Str`, `Fn(name)`, `Nil`, and the boxed
`Obj::{StringObj, ArrayObj, OptionObj}` variants (flattened into the same
inductive; the shared interior-mutable handle is immaterial to the
verified properties, which never alias a mutated object). -/
inductive Value where
  | int (n : Int)
  | bool (b : Bool)
  | str (s : String)
  | fn (name : String)
  | stringObj (s : String)
  | arrayObj (elems : List Value)
  | optionObj (v : Option Value)
  | nil
  deriving Repr

/-- Structural equality on values (`PartialEq`), used by the constant
pool's interning lookup. -/
def Value.beq : Value → Value → Bool
  | .int a, .int b => a == b
  | .bool a, .bool b => a == b
  | .str a, .str b => a == b
  | .fn a, .fn b => a == b
  | .stringObj a, .stringObj b => a == b
  | .arrayObj xs, .arrayObj ys => listBeq xs ys
  | .optionObj (some a), .optionObj (some b) => Value.beq a b
  | .optionObj none, .optionObj none => true
  | .nil, .nil => true
  | _, _ => false
where listBeq : List Value → List Value → Bool
  | [], [] => true
  | x :: xs, y :: ys => Value.beq x y && listBeq xs ys
  | _, _ => false

/-! ## Chunks and compiled modules -/

/-- `BindingDescriptor { name, scope_depth }`. -/
structure BindingDescriptor where
  name : String
  scopeDepth : Nat
  deriving Repr, DecidableEq

/-- A code chunk: byte code, run-length line table, binding count. -/
structure Chunk where
  code : List Nat
  lines : List Nat
  numBindings : Nat
  deriving Repr

/-- `Chunk::new()`. -/
def Chunk.new : Chunk := ⟨[], [], 0⟩

/-- Modelled from the spec: the line table is a dense run-length vector
where index `i` stores the number of instruction bytes emitted for source
line `i + 1`, with zeros for lines that produced no bytes (chunk.rs is not
among the provided sources; the shape is corroborated by the expected
`lines` vectors in compiler.rs's tests).  Recording a byte at `line` pads
the table with zeros up to length `line` and increments slot `line - 1`. -/
def bumpLines (lines : List Nat) (line : Nat) : List Nat :=
  match line with
  | 0 => lines
  | l + 1 =>
    let padded := if lines.length < l + 1
      then lines ++ List.replicate (l + 1 - lines.length) 0 else lines
    padded.set l ((padded.get? l).getD 0 + 1)

/-- Modelled from the spec: `Chunk::write(byte, line)` appends one byte to
`code` (a `u8`, hence the `% 256`) and records it against `line` in the
run-length line table. -/
def Chunk.write (c : Chunk) (b : Nat) (line : Nat) : Chunk :=
  { c with code := c.code ++ [b % 256], lines := bumpLines c.lines line }

/-- `CompiledModule`: named chunk table (a `HashMap`, here an association
list with unique keys), interned constant pool, shared binding vector. -/
structure CompiledModule where
  name : String
  chunks : List (String × Chunk)
  constants : List Value
  bindings : List BindingDescriptor
  deriving Repr

/-- `CompiledModule::new(name)`. -/
def CompiledModule.new (name : String) : CompiledModule := ⟨name, [], [], []⟩

/-- `CompiledModule::get_chunk`. -/
def CompiledModule.getChunk (m : CompiledModule) (name : String) : Option Chunk :=
  alookup name m.chunks

/-- `CompiledModule::add_chunk` (`HashMap::insert`: replaces an existing
entry of the same name). -/
def CompiledModule.addChunk (m : CompiledModule) (name : String) (c : Chunk) :
    CompiledModule :=
  { m with chunks := ainsert name c m.chunks }

/-- First index of `v` in the pool, by structural value equality. -/
def indexOfValue (cs : List Value) (v : Value) : Option Nat :=
  match cs with
  | [] => none
  | c :: rest =>
    if Value.beq c v then some 0 else (indexOfValue rest v).map (· + 1)

/-- Modelled from the spec: `CompiledModule::add_constant` interns a value
into the append-only constant pool and returns its index — an existing
structurally equal entry is reused (chunk.rs is not among the provided
sources; interning is corroborated by compiler.rs's tests, where the two
`Constant 0` references of `[1,2,3,4,5][3+1]` share one `Int(5)` pool
entry). -/
def CompiledModule.addConstant (m : CompiledModule) (v : Value) :
    CompiledModule × Nat :=
  match indexOfValue m.constants v with
  | some i => (m, i)
  | none => ({ m with constants := m.constants ++ [v] }, m.constants.length)

/-! ## The typed AST (shapes as consumed by compiler.rs)

`typed_ast.rs` itself is not among the provided sources; the constructors
below carry exactly the fields the compiler destructures: each node's
token line, identifier names, the typechecker-resolved result type on
operator/identifier nodes, and scope depths on binding/function nodes.
Float literals are outside the model (see the header). -/

inductive UnaryOp where
  | minus | negate
  deriving Repr, DecidableEq

inductive BinaryOp where
  | add | sub | mul | div | and | or | lt | lte | gt | gte | eq | neq | coalesce
  deriving Repr, DecidableEq

/-- The typechecker's `Type`, restricted to what the compiler inspects:
it matches on `Int`, `Float`, `Bool`, `String` and treats everything else
uniformly (`other`). -/
inductive Ty where
  | int | float | bool | string | other
  deriving Repr, DecidableEq

inductive TypedAstNode where
  | intLit (line : Nat) (n : Int)
  | boolLit (line : Nat) (b : Bool)
  | strLit (line : Nat) (s : String)
  | unary (line : Nat) (op : UnaryOp) (expr : TypedAstNode)
  | binary (line : Nat) (typ : Ty) (op : BinaryOp) (left right : TypedAstNode)
  | grouped (line : Nat) (expr : TypedAstNode)
  | array (line : Nat) (items : List TypedAstNode)
  | bindingDecl (line : Nat) (ident : String) (scopeDepth : Nat)
      (expr : Option TypedAstNode)
  | functionDecl (line : Nat) (name : String) (args : List (Nat × String))
      (body : List TypedAstNode) (scopeDepth : Nat)
  | identifier (line : Nat) (name : String) (typ : Ty)
  | assignment (line : Nat) (target : TypedAstNode) (expr : TypedAstNode)
  | indexing (line : Nat) (target : TypedAstNode) (idx : TypedAstNode)
  | indexingRange (line : Nat) (target : TypedAstNode)
      (start stop : Option TypedAstNode)
  | ifStatement (line : Nat) (condition : TypedAstNode)
      (ifBlock : List TypedAstNode) (elseBlock : Option (List TypedAstNode))
  | ifExpression (line : Nat) (condition : TypedAstNode)
      (ifBlock : List TypedAstNode) (elseBlock : Option (List TypedAstNode))
  | invocation (line : Nat) (target : TypedAstNode) (args : List TypedAstNode)
  deriving Repr

/-- `node.get_token().get_position().line`. -/
def TypedAstNode.line : TypedAstNode → Nat
  | .intLit l _ | .boolLit l _ | .strLit l _ | .unary l _ _ | .binary l _ _ _ _
  | .grouped l _ | .array l _ | .bindingDecl l _ _ _ | .functionDecl l _ _ _ _
  | .identifier l _ _ | .assignment l _ _ | .indexing l _ _
  | .indexingRange l _ _ _ | .ifStatement l _ _ _ | .ifExpression l _ _ _
  | .invocation l _ _ => l

/-- `node.get_type()` as the compiler consults it (only ever on binary
operands, to decide `I2F`/`F2I` insertion). -/
def TypedAstNode.getType : TypedAstNode → Ty
  | .intLit _ _ => .int
  | .boolLit _ _ => .bool
  | .strLit _ _ => .string
  | .unary _ .minus e => e.getType
  | .unary _ .negate _ => .bool
  | .binary _ t _ _ _ => t
  | .grouped _ e => e.getType
  | .identifier _ _ t => t
  | .assignment _ _ e => e.getType
  | _ => .other

/-- `should_pop_after_node`. -/
def shouldPopAfterNode : TypedAstNode → Bool
  | .bindingDecl _ _ _ _ | .functionDecl _ _ _ _ _ | .ifStatement _ _ _ _ => false
  | _ => true

/-! ## The compiler (compiler.rs)

This snapshot's opcode.rs names the local store/load opcodes
`LStore0..4`/`LStore`/`LLoad0..4`/`LLoad`; compiler.rs refers to the same
discriminants as `Store0..4`/`Store`/`Load0..4`/`Load`.  The embedding
uses the opcode.rs names throughout. -/

def mainChunkName : String := "main"

/-- Compiler-side aborts.  The Rust visitor's `Result<(), ()>` is never
`Err`; every failure here models a panic (`unreachable!()`, `unwrap`,
debug-checked underflow) or fuel exhaustion of the embedding. -/
inductive CErr where
  | outOfFuel
  | missingChunk
  | unreachableAst
  | bindingsEmptyUnderflow
  | patchUnderflow
  | patchIndexOOB
  deriving Repr, DecidableEq

/-- Compiler state: `Compiler { current_chunk, module, depth }`. -/
structure CState where
  currentChunk : String
  module : CompiledModule
  depth : Nat

/-- `Compiler::write_byte` (via `get_current_chunk`, which panics when the
current chunk is absent). -/
def CState.writeByte (st : CState) (b line : Nat) : Except CErr CState :=
  match alookup st.currentChunk st.module.chunks with
  | none => .error .missingChunk
  | some _ => .ok { st with module := { st.module with
      chunks := aupdate st.currentChunk (fun c => c.write b line) st.module.chunks } }

/-- `Compiler::write_opcode`. -/
def CState.writeOp (st : CState) (op : Opcode) (line : Nat) : Except CErr CState :=
  st.writeByte op.toByte line

def CState.addConstant (st : CState) (v : Value) : CState × Nat :=
  let (m, i) := st.module.addConstant v
  ({ st with module := m }, i)

/-- `Compiler::write_constant`: intern, then emit `Constant <idx>`. -/
def CState.writeConstant (st : CState) (v : Value) (line : Nat) :
    Except CErr (CState × Nat) := do
  let (st1, idx) := st.addConstant v
  let st2 ← st1.writeOp .Constant line
  let st3 ← st2.writeByte idx line
  .ok (st3, idx)

def iconstOpcode (number : Nat) : Opcode :=
  match number with
  | 0 => .IConst0 | 1 => .IConst1 | 2 => .IConst2 | 3 => .IConst3 | _ => .IConst4

/-- `Compiler::write_int_constant` (argument is the Rust `u32`). -/
def CState.writeIntConstant (st : CState) (number : Nat) (line : Nat) :
    Except CErr CState :=
  if number ≤ 4 then st.writeOp (iconstOpcode number) line
  else (st.writeConstant (.int number) line).map (·.1)

def lstoreOpcode (idx : Nat) : Opcode :=
  match idx with
  | 0 => .LStore0 | 1 => .LStore1 | 2 => .LStore2 | 3 => .LStore3 | _ => .LStore4

def lloadOpcode (idx : Nat) : Opcode :=
  match idx with
  | 0 => .LLoad0 | 1 => .LLoad1 | 2 => .LLoad2 | 3 => .LLoad3 | _ => .LLoad4

/-- `Compiler::write_store_instr`: slots 0..4 use the short opcodes; any
larger slot pushes the index as an int constant and emits the long
`LStore` (which, note, carries no inline immediate byte this way). -/
def CState.writeStoreInstr (st : CState) (idx line : Nat) : Except CErr CState :=
  if idx ≤ 4 then st.writeOp (lstoreOpcode idx) line
  else do
    let st1 ← st.writeIntConstant idx line
    st1.writeOp .LStore line

/-- `Compiler::write_load_instr`. -/
def CState.writeLoadInstr (st : CState) (idx line : Nat) : Except CErr CState :=
  if idx ≤ 4 then st.writeOp (lloadOpcode idx) line
  else do
    let st1 ← st.writeIntConstant idx line
    st1.writeOp .LLoad line

/-- Does the descriptor at index `i` carry `name`? -/
def matchesName (bds : List BindingDescriptor) (name : String) (i : Nat) : Bool :=
  match bds.get? i with
  | some d => d.name == name
  | none => false

/-- The scan loop of `get_binding_index`: from index `i` downward, stop at
the first name match, but never examine index 0 (`while binding_idx > 0`). -/
def gbiScan (bds : List BindingDescriptor) (name : String) : Nat → Nat
  | 0 => 0
  | i + 1 => if matchesName bds name (i + 1) then i + 1 else gbiScan bds name i

/-- `Compiler::get_binding_index`.  `bindings.len() - 1` on an empty
vector underflows `usize` (a panic under overflow checks). -/
def getBindingIndex (bds : List BindingDescriptor) (name : String) :
    Except CErr Nat :=
  match bds.length with
  | 0 => .error .bindingsEmptyUnderflow
  | n + 1 => .ok (gbiScan bds name n)

def CState.pushBinding (st : CState) (d : BindingDescriptor) : CState :=
  { st with module := { st.module with bindings := st.module.bindings ++ [d] } }

/-- `get_current_chunk().num_bindings += 1`. -/
def CState.incNumBindings (st : CState) : Except CErr CState :=
  match alookup st.currentChunk st.module.chunks with
  | none => .error .missingChunk
  | some _ => .ok { st with module := { st.module with
      chunks := aupdate st.currentChunk
        (fun c => { c with numBindings := c.numBindings + 1 }) st.module.chunks } }

def CState.currentCode? (st : CState) : Option (List Nat) :=
  (alookup st.currentChunk st.module.chunks).map (·.code)

/-- `*chunk.code.get_mut(pos).unwrap() = v as u8`. -/
def CState.patchByte (st : CState) (pos v : Nat) : Except CErr CState :=
  match alookup st.currentChunk st.module.chunks with
  | none => .error .missingChunk
  | some c =>
    if pos < c.code.length then
      .ok { st with module := { st.module with
        chunks := aupdate st.currentChunk
          (fun c => { c with code := c.code.set pos (v % 256) }) st.module.chunks } }
    else .error .patchIndexOOB

/-- Rust `i64 as u32`. -/
def asU32 (n : Int) : Nat := (n % (2 ^ 32 : Int)).toNat

/-- The binary-node opcode table of `visit_binary` (`unreachable!()` on
any other operator/type pairing). -/
def binaryOpcode (op : BinaryOp) (typ : Ty) : Except CErr Opcode :=
  match op, typ with
  | .add, .string => .ok .StrConcat
  | .and, .bool => .ok .And
  | .or, .bool => .ok .Or
  | .lt, .bool => .ok .LT
  | .lte, .bool => .ok .LTE
  | .gt, .bool => .ok .GT
  | .gte, .bool => .ok .GTE
  | .eq, _ => .ok .Eq
  | .neq, _ => .ok .Neq
  | .coalesce, _ => .ok .Coalesce
  | .add, .int => .ok .IAdd
  | .add, .float => .ok .FAdd
  | .sub, .int => .ok .ISub
  | .sub, .float => .ok .FSub
  | .mul, .int => .ok .IMul
  | .mul, .float => .ok .FMul
  | .div, .int => .ok .IDiv
  | .div, .float => .ok .FDiv
  | _, _ => .error .unreachableAst

/-- The `I2F`/`F2I` coercion inserted after an operand, keyed on (binary
node type, operand type). -/
def CState.writeCoercion (st : CState) (nodeType operandType : Ty) (line : Nat) :
    Except CErr CState :=
  match nodeType, operandType with
  | .int, .float => st.writeOp .F2I line
  | .float, .int => st.writeOp .I2F line
  | _, _ => .ok st

/-- The parameter loop of `visit_function_decl`: allocate a binding at
`scope_depth + 1` for each argument and emit its store. -/
def storeArgs (sd : Nat) : List (Nat × String) → CState → Except CErr CState
  | [], st => .ok st
  | (argLine, ident) :: rest, st => do
    let bindingIdx := st.module.bindings.length
    let st1 := st.pushBinding ⟨ident, sd + 1⟩
    let st2 ← st1.incNumBindings
    let st3 ← st2.writeStoreInstr bindingIdx argLine
    storeArgs sd rest st3

/-- The work items of the visitor: a single node, the plain element loops
(array items, invocation arguments), the if-branch loop with its pop
rules, the function-body loop (tracking the last line), the top-level
loop of `compile` (tracking the last line), and the shared
`visit_if_statement(is_stmt, ..)` core. -/
inductive Task where
  | node (n : TypedAstNode)
  | many (ns : List TypedAstNode)
  | block (isStmt : Bool) (ns : List TypedAstNode)
  | body (lastLine : Nat) (ns : List TypedAstNode)
  | toplevel (lastLine : Nat) (ns : List TypedAstNode)
  | ifcore (isStmt : Bool) (line : Nat) (condition : TypedAstNode)
      (ifBlock : List TypedAstNode) (elseBlock : Option (List TypedAstNode))

/-- The visitor (`TypedAstVisitor for Compiler` plus the loops of
`compile`), fuel-indexed.  The `Nat` of the result is the running
last-line for the `body`/`toplevel` loops and `0` elsewhere. -/
def visitT : Nat → Task → CState → Except CErr (CState × Nat)
  | 0, _, _ => .error .outOfFuel
  | _ + 1, .node (.intLit line n), st => do
    let st1 ← st.writeIntConstant (asU32 n) line
    .ok (st1, 0)
  | _ + 1, .node (.boolLit line b), st => do
    let st1 ← st.writeOp (if b then .T else .F) line
    .ok (st1, 0)
  | _ + 1, .node (.strLit line s), st => do
    let (st1, idx) := st.addConstant (.stringObj s)
    let st2 ← st1.writeOp .Constant line
    let st3 ← st2.writeByte idx line
    .ok (st3, 0)
  | f + 1, .node (.unary line op expr), st => do
    let (st1, _) ← visitT f (.node expr) st
    let st2 ← st1.writeOp (match op with | .minus => .Invert | .negate => .Negate) line
    .ok (st2, 0)
  | f + 1, .node (.binary line typ op left right), st => do
    let opc ← binaryOpcode op typ
    let (st1, _) ← visitT f (.node left) st
    let st2 ← st1.writeCoercion typ left.getType left.line
    let (st3, _) ← visitT f (.node right) st2
    let st4 ← st3.writeCoercion typ right.getType right.line
    let st5 ← st4.writeOp opc line
    .ok (st5, 0)
  | f + 1, .node (.grouped _ expr), st => visitT f (.node expr) st
  | f + 1, .node (.array line items), st => do
    let (st1, _) ← visitT f (.many items) st
    let st2 ← st1.writeIntConstant items.length line
    let st3 ← st2.writeOp .ArrMk line
    .ok (st3, 0)
  | f + 1, .node (.bindingDecl line ident sd expr), st => do
    let bindingIdx := st.module.bindings.length
    let st1 := st.pushBinding ⟨ident, sd⟩
    let st2 ← st1.incNumBindings
    match expr with
    | none => .ok (st2, 0)
    | some e => do
      let (st3, _) ← visitT f (.node e) st2
      let st4 ← st3.writeStoreInstr bindingIdx line
      .ok (st4, 0)
  | f + 1, .node (.functionDecl line name args body sd), st => do
    let (st1, constIdx) := st.addConstant (.fn name)
    let st2 ← st1.writeOp .Constant line
    let st3 ← st2.writeByte constIdx line
    let st4 := { st3 with module := st3.module.addChunk name Chunk.new }
    let prev := st4.currentChunk
    let st5 := { st4 with currentChunk := name }
    let st6 ← storeArgs sd args st5
    let (st7, lastLine) ← visitT f (.body 0 body) st6
    let st8 ← st7.writeOp .Return lastLine
    let st9 := { st8 with currentChunk := prev }
    match alookup name st9.module.chunks with
    | none => .error .missingChunk
    | some funcChunk => do
      let nb := funcChunk.numBindings
      let st10 := { st9 with module := { st9.module with
        bindings := st9.module.bindings.take (st9.module.bindings.length - nb) } }
      let bindingIdx := st10.module.bindings.length
      let st11 := st10.pushBinding ⟨name, sd⟩
      let st12 ← st11.incNumBindings
      let st13 ← st12.writeStoreInstr bindingIdx line
      .ok (st13, 0)
  | _ + 1, .node (.identifier line name _), st => do
    let idx ← getBindingIndex st.module.bindings name
    let st1 ← st.writeLoadInstr idx line
    .ok (st1, 0)
  | f + 1, .node (.assignment line target expr), st => do
    let ident ← match target with
      | .identifier _ n _ => Except.ok n
      | _ => Except.error CErr.unreachableAst
    let (st1, _) ← visitT f (.node expr) st
    let idx ← getBindingIndex st1.module.bindings ident
    let st2 ← st1.writeStoreInstr idx line
    let st3 ← st2.writeLoadInstr idx line
    .ok (st3, 0)
  | f + 1, .node (.indexing line target idx), st => do
    let (st1, _) ← visitT f (.node target) st
    let (st2, _) ← visitT f (.node idx) st1
    let st3 ← st2.writeOp .ArrLoad line
    .ok (st3, 0)
  | f + 1, .node (.indexingRange line target start stop), st => do
    let (st1, _) ← visitT f (.node target) st
    let st2 ← match start with
      | some s => do
        let (st2, _) ← visitT f (.node s) st1
        Except.ok st2
      | none => st1.writeIntConstant 0 line
    let st3 ← match stop with
      | some e => do
        let (st3, _) ← visitT f (.node e) st2
        Except.ok st3
      | none => st2.writeOp .Nil line
    let st4 ← st3.writeOp .ArrSlc line
    .ok (st4, 0)
  | f + 1, .node (.ifStatement line c ib eb), st =>
    visitT f (.ifcore true line c ib eb) st
  | f + 1, .node (.ifExpression line c ib eb), st =>
    visitT f (.ifcore false line c ib eb) st
  | f + 1, .node (.invocation line target args), st => do
    let (st1, _) ← visitT f (.many args) st
    let name ← match target with
      | .identifier _ n _ => Except.ok n
      | _ => Except.error CErr.unreachableAst
    let (st2, _) ← st1.writeConstant (.stringObj name) line
    let st3 ← st2.writeOp .Invoke line
    .ok (st3, 0)
  | _ + 1, .many [], st => .ok (st, 0)
  | f + 1, .many (x :: rest), st => do
    let (st1, _) ← visitT f (.node x) st
    visitT f (.many rest) st1
  | _ + 1, .block _ [], st => .ok (st, 0)
  | f + 1, .block isStmt (x :: rest), st => do
    let ln := x.line
    let sp := shouldPopAfterNode x
    let (st1, _) ← visitT f (.node x) st
    let st2 ← if isStmt && sp then st1.writeOp .Pop ln
      else if !rest.isEmpty && sp then st1.writeOp .Pop ln
      else Except.ok st1
    visitT f (.block isStmt rest) st2
  | _ + 1, .body lastLine [], st => .ok (st, lastLine)
  | f + 1, .body _ (x :: rest), st => do
    let (st1, _) ← visitT f (.node x) st
    visitT f (.body x.line rest) st1
  | _ + 1, .toplevel lastLine [], st => .ok (st, lastLine)
  | f + 1, .toplevel _ (x :: rest), st => do
    let ln := x.line
    let sp := shouldPopAfterNode x
    let (st1, _) ← visitT f (.node x) st
    let st2 ← if !rest.isEmpty && sp then st1.writeOp .Pop ln else Except.ok st1
    visitT f (.toplevel ln rest) st2
  | f + 1, .ifcore isStmt line condition ifBlock elseBlock, st => do
    let (st1, _) ← visitT f (.node condition) st
    let st2 ← st1.writeOp .JumpIfF line
    let st3 ← st2.writeByte 0 line
    let jumpIdx ← match st3.currentCode? with
      | some code => Except.ok code.length
      | none => Except.error CErr.missingChunk
    let (st4, _) ← visitT f (.block isStmt ifBlock) st3
    let st5 ← if elseBlock.isSome then do
        let st5a ← st4.writeOp .Jump line
        st5a.writeByte 0 line
      else Except.ok st4
    let code5 ← match st5.currentCode? with
      | some code => Except.ok code
      | none => Except.error CErr.missingChunk
    let ifBlockLen ← if jumpIdx ≤ code5.length
      then Except.ok (code5.length - jumpIdx)
      else Except.error CErr.patchUnderflow
    let st6 ← st5.patchByte (jumpIdx - 1) ifBlockLen
    let jumpIdx2 ← match st6.currentCode? with
      | some code => Except.ok code.length
      | none => Except.error CErr.missingChunk
    match elseBlock with
    | none => .ok (st6, 0)
    | some els => do
      let (st7, _) ← visitT f (.block isStmt els) st6
      let code7 ← match st7.currentCode? with
        | some code => Except.ok code
        | none => Except.error CErr.missingChunk
      let elseLen ← if jumpIdx2 ≤ code7.length
        then Except.ok (code7.length - jumpIdx2)
        else Except.error CErr.patchUnderflow
      let st8 ← st7.patchByte (jumpIdx2 - 1) elseLen
      .ok (st8, 0)

/-- `compile(module_name, ast)`: set up the `main` chunk, run the
top-level loop, then append the trailing `Return` to `main` on a line one
greater than the last node's. -/
def compile (fuel : Nat) (moduleName : String) (ast : List TypedAstNode) :
    Except CErr CompiledModule := do
  let m0 := (CompiledModule.new moduleName).addChunk mainChunkName Chunk.new
  let st0 : CState := ⟨mainChunkName, m0, 0⟩
  let (st, lastLine) ← visitT fuel (.toplevel 0 ast) st0
  match alookup mainChunkName st.module.chunks with
  | none => .error .missingChunk
  | some _ => .ok { st.module with
      chunks := aupdate mainChunkName
        (fun c => c.write Opcode.Return.toByte (lastLine + 1)) st.module.chunks }

/-! ## The virtual machine (vm.rs) -/

/-- VM-side failures.  The first three are the source's `InterpretError`
variants; the rest model Rust panics (plus the explicit model boundaries:
opcodes with no arm in `VM::run`'s match, and float conversions). -/
inductive RunErr where
  | stackEmpty
  | constIdxOutOfBounds
  | endOfBytes
  | panicNoStackSlot
  | panicUnreachable
  | panicMissingChunk
  | panicInvalidOpcode
  | panicIndexOOB
  | panicArithmetic
  | panicNoFrame
  | missingOpcodeArm
  | unmodelledFloat
  deriving Repr, DecidableEq

/-- `CallFrame { ip, chunk_name, stack_offset }`. -/
structure CallFrame where
  ip : Nat
  chunkName : String
  stackOffset : Nat
  deriving Repr

/-- `VM { call_stack, module, stack, globals }`.  The head of `callStack`
is the current (innermost) frame; `stack` is bottom-first, its last
element the top of the operand stack. -/
structure VMState where
  callStack : List CallFrame
  module : CompiledModule
  stack : List Value
  globals : List (String × Value)

def VMState.push (s : VMState) (v : Value) : VMState :=
  { s with stack := s.stack ++ [v] }

/-- `VM::pop_expect`. -/
def VMState.popExpect (s : VMState) : Except RunErr (Value × VMState) :=
  match s.stack.getLast? with
  | none => .error .stackEmpty
  | some v => .ok (v, { s with stack := s.stack.dropLast })

/-- `VM::read_byte`, with `EndOfBytes` for `ip` exactly at the end (both
call sites map the `None` this way) and a slice-index panic beyond it. -/
def VMState.readByteE (s : VMState) : Except RunErr (Nat × VMState) :=
  match s.callStack with
  | [] => .error .panicNoFrame
  | frame :: rest =>
    match s.module.getChunk frame.chunkName with
    | none => .error .panicMissingChunk
    | some chunk =>
      if frame.ip = chunk.code.length then .error .endOfBytes
      else
        match chunk.code.get? frame.ip with
        | none => .error .panicIndexOOB
        | some b => .ok (b, { s with callStack := { frame with ip := frame.ip + 1 } :: rest })

/-- Add `n` to the current frame's `ip` (the jump arms). -/
def VMState.bumpIp (s : VMState) (n : Nat) : Except RunErr VMState :=
  match s.callStack with
  | [] => .error .panicNoFrame
  | frame :: rest => .ok { s with callStack := { frame with ip := frame.ip + n } :: rest }

/-- `VM::store(stack_slot)`: rebase by the frame's `stack_offset`, pop the
value, then `stack_insert_at` — which panics when the slot is not an
existing stack index (there is no growth path in this source). -/
def vmStore (slot : Nat) (s : VMState) : Except RunErr VMState :=
  match s.callStack with
  | [] => .error .panicNoFrame
  | frame :: _ => do
    let i := slot + frame.stackOffset
    let (v, s1) ← s.popExpect
    if i < s1.stack.length then .ok { s1 with stack := s1.stack.set i v }
    else .error .panicNoStackSlot

/-- `VM::load(stack_slot)`: clone from the rebased slot (`Nil` beyond the
live stack) and push. -/
def vmLoad (slot : Nat) (s : VMState) : Except RunErr VMState :=
  match s.callStack with
  | [] => .error .panicNoFrame
  | frame :: _ =>
    .ok (s.push ((s.stack.get? (slot + frame.stackOffset)).getD .nil))

/-- `Display for Value` as consumed by `StrConcat` (the heap-object
renderings beyond strings are not exercised by any verified property). -/
def Value.display : Value → String
  | .int n => toString n
  | .bool b => if b then "true" else "false"
  | .str s => s
  | .fn name => "<func " ++ name ++ ">"
  | .stringObj s => s
  | .arrayObj xs => "[" ++ String.intercalate ", " (displayList xs) ++ "]"
  | .optionObj (some v) => "Some(" ++ Value.display v ++ ")"
  | .optionObj none => "None"
  | .nil => "None"
where displayList : List Value → List String
  | [] => []
  | x :: xs => Value.display x :: displayList xs

/-- Variant order of the `Value` enum (for the derived cross-variant
`PartialOrd`; the absent `Float` would sit at 1). -/
def Value.discIdx : Value → Nat
  | .int _ => 0
  | .bool _ => 2
  | .str _ => 3
  | .stringObj _ | .arrayObj _ | .optionObj _ => 4
  | .fn _ => 5
  | .nil => 6

/-- `partial_cmp` on values as `comp_values` uses it: same-variant
compare where defined, `None` for distinct heap-object kinds, variant
order across variants. -/
def pcmpValues (a b : Value) : Option Ordering :=
  match a, b with
  | .int x, .int y => some (compare x y)
  | .bool x, .bool y => some (compare x y)
  | .str x, .str y => some (compare x y)
  | .fn x, .fn y => some (compare x y)
  | .stringObj x, .stringObj y => some (compare x y)
  | .nil, .nil => some .eq
  | _, _ =>
    if a.discIdx = b.discIdx then none else some (compare a.discIdx b.discIdx)

/-- The comparison table of `comp_values` (`None` orderings yield
`false`). -/
def compBool (op : Opcode) (ord : Option Ordering) : Bool :=
  match ord with
  | none => false
  | some o =>
    match op with
    | .LT => o = .lt
    | .LTE => o ≠ .gt
    | .GT => o = .gt
    | .GTE => o ≠ .lt
    | .Eq => o = .eq
    | .Neq => o ≠ .eq
    | _ => false

/-- Rust `i64 as usize` (wrapping two's-complement cast). -/
def asUsize (i : Int) : Nat := (i % (2 ^ 64 : Int)).toNat

/-- `get_range_endpoints(len, start, end)` from the `ArrSlc` arm: resolve
negative endpoints by adding the length (`Nil` meaning the length), cast
to `usize`, and return `(start, end - start)` — whose subtraction
underflows (a panic under overflow checks) whenever the cast end is below
the cast start.  No clamping happens here. -/
def getRangeEndpoints (len : Nat) (start : Int) (endv : Value) :
    Except RunErr (Nat × Nat) := do
  let lenI : Int := len
  let start := if start < 0 then start + lenI else start
  let endI ← match endv with
    | .int e => Except.ok e
    | .nil => Except.ok lenI
    | _ => Except.error RunErr.panicUnreachable
  let endI := if endI < 0 then endI + lenI else endI
  let startU := asUsize start
  let endU := asUsize endI
  if endU < startU then .error .panicArithmetic
  else .ok (startU, endU - startU)

inductive StepRes where
  | cont (s : VMState)
  | done (v : Option Value)
  | err (e : RunErr)

/-- Lift the `Except`-shaped helpers into a continued step. -/
def asStep (r : Except RunErr VMState) : StepRes :=
  match r with
  | .error e => .err e
  | .ok s => .cont s

/-- The `a op b` integer arms (`int_op`): pop `b`, pop `a`, push the
result; non-ints are `unreachable!()`. -/
def intArith (s : VMState) (f : Int → Int → Int) : StepRes :=
  match s.popExpect with
  | .error e => .err e
  | .ok (bv, s1) =>
    match s1.popExpect with
    | .error e => .err e
    | .ok (av, s2) =>
      match av, bv with
      | .int a, .int b => .cont (s2.push (.int (f a b)))
      | _, _ => .err .panicUnreachable

/-- `comp_values(opcode)`. -/
def compValues (op : Opcode) (s : VMState) : StepRes :=
  match s.popExpect with
  | .error e => .err e
  | .ok (bv, s1) =>
    match s1.popExpect with
    | .error e => .err e
    | .ok (av, s2) => .cont (s2.push (.bool (compBool op (pcmpValues av bv))))

/-- One dispatch arm of `VM::run`'s match, after the opcode byte has been
fetched and decoded. -/
def stepOp (op : Opcode) (s : VMState) : StepRes :=
  match op with
  | .Constant =>
    match s.readByteE with
    | .error e => .err e
    | .ok (idx, s1) =>
      match s1.module.constants.get? idx with
      | none => .err .constIdxOutOfBounds
      | some v => .cont (s1.push v)
  | .Nil => .cont (s.push .nil)
  | .IConst0 => .cont (s.push (.int 0))
  | .IConst1 => .cont (s.push (.int 1))
  | .IConst2 => .cont (s.push (.int 2))
  | .IConst3 => .cont (s.push (.int 3))
  | .IConst4 => .cont (s.push (.int 4))
  | .IAdd => intArith s (· + ·)
  | .ISub => intArith s (· - ·)
  | .IMul => intArith s (· * ·)
  | .IDiv =>
    match s.popExpect with
    | .error e => .err e
    | .ok (bv, s1) =>
      match s1.popExpect with
      | .error e => .err e
      | .ok (av, s2) =>
        match av, bv with
        | .int _, .int 0 => .err .panicArithmetic
        | .int a, .int b => .cont (s2.push (.int (Int.tdiv a b)))
        | _, _ => .err .panicUnreachable
  | .FAdd | .FSub | .FMul | .FDiv =>
    match s.popExpect with
    | .error e => .err e
    | .ok (_, s1) =>
      match s1.popExpect with
      | .error e => .err e
      | .ok (_, _) => .err .panicUnreachable
  | .I2F =>
    match s.popExpect with
    | .error e => .err e
    | .ok (v, _) =>
      match v with
      | .int _ => .err .unmodelledFloat
      | _ => .err .panicUnreachable
  | .F2I =>
    match s.popExpect with
    | .error e => .err e
    | .ok (_, _) => .err .panicUnreachable
  | .Invert =>
    match s.popExpect with
    | .error e => .err e
    | .ok (v, s1) =>
      match v with
      | .int n => .cont (s1.push (.int (-n)))
      | _ => .err .panicUnreachable
  | .StrConcat =>
    match s.popExpect with
    | .error e => .err e
    | .ok (bv, s1) =>
      match s1.popExpect with
      | .error e => .err e
      | .ok (av, s2) => .cont (s2.push (.stringObj (av.display ++ bv.display)))
  | .T => .cont (s.push (.bool true))
  | .F => .cont (s.push (.bool false))
  | .And | .Or =>
    match s.popExpect with
    | .error e => .err e
    | .ok (bv, s1) =>
      match bv with
      | .bool b =>
        match s1.popExpect with
        | .error e => .err e
        | .ok (av, s2) =>
          match av with
          | .bool a => .cont (s2.push (.bool (if op = .And then a && b else a || b)))
          | _ => .err .panicUnreachable
      | _ => .err .panicUnreachable
  | .Negate =>
    match s.popExpect with
    | .error e => .err e
    | .ok (v, s1) =>
      match v with
      | .bool b => .cont (s1.push (.bool (!b)))
      | _ => .err .panicUnreachable
  | .Coalesce =>
    match s.popExpect with
    | .error e => .err e
    | .ok (fallback, s1) =>
      match s1.popExpect with
      | .error e => .err e
      | .ok (v, s2) =>
        match v with
        | .optionObj (some inner) => .cont (s2.push inner)
        | .optionObj none => .cont (s2.push fallback)
        | _ => .err .panicUnreachable
  | .LT | .LTE | .GT | .GTE | .Eq | .Neq => compValues op s
  | .ArrMk =>
    match s.popExpect with
    | .error e => .err e
    | .ok (sizev, s1) =>
      match sizev with
      | .int size =>
        let n := size.toNat
        let keep := s1.stack.length - n
        let items := s1.stack.drop keep
        if n ≤ s1.stack.length then
          .cont { s1 with stack := s1.stack.take keep ++ [.arrayObj items] }
        else .err .stackEmpty
      | _ => .err .panicUnreachable
  | .ArrLoad =>
    match s.popExpect with
    | .error e => .err e
    | .ok (idxv, s1) =>
      match idxv with
      | .int idx =>
        match s1.popExpect with
        | .error e => .err e
        | .ok (target, s2) =>
          match target with
          | .stringObj str =>
            let len : Int := str.utf8ByteSize
            let idx := if idx < 0 then idx + len else idx
            let ch := str.data.get? (asUsize idx)
            .cont (s2.push (.optionObj (ch.map fun c => .stringObj (String.mk [c]))))
          | .arrayObj xs =>
            let len : Int := xs.length
            if idx < -len ∨ len ≤ idx then
              .cont (s2.push (.optionObj none))
            else
              let i := asUsize (if idx < 0 then idx + len else idx)
              match xs.get? i with
              | some x => .cont (s2.push (.optionObj (some x)))
              | none => .err .panicIndexOOB
          | _ => .err .panicUnreachable
      | _ => .err .panicUnreachable
  | .ArrSlc =>
    match s.popExpect with
    | .error e => .err e
    | .ok (endv, s1) =>
      match s1.popExpect with
      | .error e => .err e
      | .ok (startv, s2) =>
        match startv with
        | .int start =>
          match s2.popExpect with
          | .error e => .err e
          | .ok (target, s3) =>
            match target with
            | .stringObj str =>
              match getRangeEndpoints str.utf8ByteSize start endv with
              | .error e => .err e
              | .ok (st, ln) =>
                .cont (s3.push (.stringObj (String.mk ((str.data.drop st).take ln))))
            | .arrayObj xs =>
              match getRangeEndpoints xs.length start endv with
              | .error e => .err e
              | .ok (st, ln) =>
                .cont (s3.push (.arrayObj ((xs.drop st).take ln)))
            | _ => .err .panicUnreachable
        | _ => .err .panicUnreachable
  | .GStore =>
    match s.popExpect with
    | .error e => .err e
    | .ok (keyv, s1) =>
      match keyv with
      | .stringObj key =>
        match s1.popExpect with
        | .error e => .err e
        | .ok (v, s2) => .cont { s2 with globals := ainsert key v s2.globals }
      | _ => .err .panicUnreachable
  | .LStore0 => asStep (vmStore 0 s)
  | .LStore1 => asStep (vmStore 1 s)
  | .LStore2 => asStep (vmStore 2 s)
  | .LStore3 => asStep (vmStore 3 s)
  | .LStore4 => asStep (vmStore 4 s)
  | .LStore =>
    match s.readByteE with
    | .error e => .err e
    | .ok (slot, s1) => asStep (vmStore slot s1)
  | .GLoad =>
    match s.popExpect with
    | .error e => .err e
    | .ok (keyv, s1) =>
      match keyv with
      | .stringObj key => .cont (s1.push ((alookup key s1.globals).getD .nil))
      | _ => .err .panicUnreachable
  | .LLoad0 => asStep (vmLoad 0 s)
  | .LLoad1 => asStep (vmLoad 1 s)
  | .LLoad2 => asStep (vmLoad 2 s)
  | .LLoad3 => asStep (vmLoad 3 s)
  | .LLoad4 => asStep (vmLoad 4 s)
  | .LLoad =>
    match s.readByteE with
    | .error e => .err e
    | .ok (slot, s1) => asStep (vmLoad slot s1)
  | .Jump =>
    match s.readByteE with
    | .error e => .err e
    | .ok (n, s1) => asStep (s1.bumpIp n)
  | .JumpIfF =>
    match s.readByteE with
    | .error e => .err e
    | .ok (n, s1) =>
      match s1.popExpect with
      | .error e => .err e
      | .ok (v, s2) =>
        match v with
        | .bool cond => if cond then .cont s2 else asStep (s2.bumpIp n)
        | _ => .err .panicUnreachable
  | .Invoke =>
    match s.popExpect with
    | .error e => .err e
    | .ok (namev, s1) =>
      match namev with
      | .stringObj name =>
        match s1.readByteE with
        | .error e => .err e
        | .ok (arity, s2) =>
          if arity ≤ s2.stack.length then
            .cont { s2 with callStack :=
              ⟨0, name, s2.stack.length - arity⟩ :: s2.callStack }
          else .err .panicArithmetic
      | _ => .err .panicUnreachable
  | .Pop =>
    match s.popExpect with
    | .error e => .err e
    | .ok (_, s1) => .cont s1
  | .Return =>
    match s.callStack with
    | [] => .err .panicNoFrame
    | frame :: rest =>
      if frame.chunkName = mainChunkName then .done s.stack.getLast?
      else .cont { s with callStack := rest }
  | .IMod | .FMod | .OptMk | .MapMk | .MapLoad
  | .UStore0 | .UStore1 | .UStore2 | .UStore3 | .UStore4 | .UStore
  | .ULoad0 | .ULoad1 | .ULoad2 | .ULoad3 | .ULoad4 | .ULoad
  | .JumpB | .ClosureMk | .CloseUpvalue | .CloseUpvalueAndPop | .PopN =>
    .err .missingOpcodeArm

/-- One fetch-decode-execute tick of `VM::run`'s loop. -/
def step (s : VMState) : StepRes :=
  match s.readByteE with
  | .error e => .err e
  | .ok (b, s1) =>
    match Opcode.ofByte? b with
    | none => .err .panicInvalidOpcode
    | some op => stepOp op s1

/-- `VM::run`, fuel-indexed (`none` = fuel exhausted). -/
def runFuel : Nat → VMState → Option (Except RunErr (Option Value))
  | 0, _ => none
  | n + 1, s =>
    match step s with
    | .err e => some (.error e)
    | .done v => some (.ok v)
    | .cont s' => runFuel n s'

/-- `VM::new(module)`: one root frame on `main`. -/
def vmNew (m : CompiledModule) : VMState :=
  ⟨[⟨0, mainChunkName, 0⟩], m, [], []⟩

/-! ## Concrete programs and result projections -/

/-- The `main` chunk's code of a compilation result. -/
def mainCodeOf (r : Except CErr CompiledModule) : Option (List Nat) :=
  match r with
  | .ok m => (alookup mainChunkName m.chunks).map (·.code)
  | .error _ => none

/-- Compile-then-run: the VM outcome of a compilation result. -/
def runOf (r : Except CErr CompiledModule) (fuel : Nat) :
    Option (Except RunErr (Option Value)) :=
  match r with
  | .ok m => runFuel fuel (vmNew m)
  | .error _ => none

/-- `val one = 1` / `func inc(number: Int) { number + 1 }` /
`val two = inc(number: one)` — the typed AST of compiler.rs's
`compile_function_invocation` test. -/
def incProg : List TypedAstNode :=
  [ .bindingDecl 1 "one" 0 (some (.intLit 1 1)),
    .functionDecl 2 "inc" [(2, "number")]
      [.binary 3 .int .add (.identifier 3 "number" .int) (.intLit 3 1)] 0,
    .bindingDecl 6 "two" 0
      (some (.invocation 6 (.identifier 6 "inc" .other) [.identifier 6 "one" .int])) ]

/-- A hand-assembled module whose `main` is
`[Constant 0, Invoke, 0, IConst0, Return]` with a one-byte chunk `"f"`:
the byte after `Invoke`'s arity immediate is an `IConst0` instruction, so
the final value tells exactly how many immediate bytes the dispatch loop
consumed for `Invoke`. -/
def invokeProbeModule : CompiledModule :=
  ⟨"m", [(mainChunkName, ⟨[0, 0, 68, 0, 2, 74], [6], 0⟩), ("f", ⟨[74], [1], 0⟩)],
    [.stringObj "f"], []⟩

/-- `1 + 2 * 3`. -/
def arithProg : List TypedAstNode :=
  [.binary 1 .int .add (.intLit 1 1)
    (.binary 1 .int .mul (.intLit 1 2) (.intLit 1 3))]

/-- A module whose `main` is `[IConst1, LStore0, Return]` — the code the
compiler emits for `val a = 1` — executed from the empty stack. -/
def storeProbeModule : CompiledModule :=
  ⟨"m", [(mainChunkName, ⟨[3, 40, 74], [3], 1⟩)], [], [⟨"a", 0⟩]⟩

/-- `if (true) { 0 0 ... 0 }` (as a statement) with `n` literal-expression
statements in the then-branch, each compiling to `IConst0; Pop` (2 bytes). -/
def ifFamily (n : Nat) : List TypedAstNode :=
  [.ifStatement 1 (.boolLit 1 true) (List.replicate n (.intLit 1 0)) none]

/-- The then-branch bytes of `ifFamily n`: `n` copies of `IConst0; Pop`. -/
def ifBranchBytes (n : Nat) : List Nat := (List.replicate n [2, 72]).flatten

/-- `"abc"[-1:]`. -/
def sliceInstProg : List TypedAstNode :=
  [.indexingRange 1 (.strLit 1 "abc") (some (.unary 1 .minus (.intLit 1 1))) none]

/-- `"abc"[-5:]` — the resolved start `-5 + 3 = -2` is still negative. -/
def sliceCexProg : List TypedAstNode :=
  [.indexingRange 1 (.strLit 1 "abc") (some (.unary 1 .minus (.intLit 1 5))) none]

/-- `[1,2,3,4,5][3+1]`. -/
def indexInstProg : List TypedAstNode :=
  [.indexing 1
    (.array 1 [.intLit 1 1, .intLit 1 2, .intLit 1 3, .intLit 1 4, .intLit 1 5])
    (.binary 1 .int .add (.intLit 1 3) (.intLit 1 1))]

/-- `func f(a: Int) { func f() { 0 } }`: the nested declaration shares the
enclosing function's name, so its `add_chunk` replaces the chunk whose
`num_bindings` is still counting the outer parameters. -/
def shadowFnNode : TypedAstNode :=
  .functionDecl 1 "f" [(1, "a")] [.functionDecl 2 "f" [] [.intLit 2 0] 1] 0

/-- The compiler's initial state for a module named `"m"` (what `compile`
builds before the top-level loop). -/
def initCState : CState :=
  ⟨mainChunkName, (CompiledModule.new "m").addChunk mainChunkName Chunk.new, 0⟩

/-- The claim's reading of `get_binding_index` (spec side, for the
refinement comparison of C10): the highest index whose descriptor matches
the name, and 0 when none matches. -/
def claimedBindingIndex (bds : List BindingDescriptor) (name : String) : Nat :=
  (List.range bds.length).foldl (fun acc i => if matchesName bds name i then i else acc) 0

/-- The claim's reading of `ArrSlc`'s endpoint handling (spec side, for
the comparison of C4): resolve negative endpoints by adding the length
(`none` = absent end meaning the length), then clamp both endpoints into
`[0, len]` and take the selected range. -/
def arrSlcClaimed (s : List Char) (start : Int) (endv : Option Int) : List Char :=
  let len : Int := s.length
  let start := if start < 0 then start + len else start
  let endR := match endv with
    | some e => if e < 0 then e + len else e
    | none => len
  let startC := (min (max start 0) len).toNat
  let endC := (min (max endR 0) len).toNat
  (s.drop startC).take (endC - startC)

/-! ## Claim theorems: the closed cases -/

/-- C1: the immediate-byte counts do not agree.  `num_expected_imms`
declares two immediate bytes for `Invoke`; the compiler writes `Invoke`
with zero immediate bytes (in the compiled invocation program the byte
after `Invoke` at index 8 is `42 = LStore2`, the next instruction); and
the VM's dispatch loop consumes exactly one immediate byte for `Invoke` —
in the probe module the byte after the arity immediate executes as
`IConst0`, so the program returns `Int 0` (two consumed immediates would
have skipped it and returned no value). -/
theorem c1_invoke_imm_disagreement :
    Opcode.numExpectedImms .Invoke = 2 ∧
    mainCodeOf (compile 100 "m" incProg) =
      some [3, 40, 0, 0, 41, 53, 0, 1, 68, 42, 74] ∧
    runFuel 20 (vmNew invokeProbeModule) = some (.ok (some (.int 0))) :=
  ⟨rfl, rfl, rfl⟩

/-- C2: a local store whose rebased slot equals `stack.len()` does not
grow the stack; `stack_insert_at` panics.  Executing
`[IConst1, LStore0, Return]` — the code of `val a = 1` — pops the `1` and
then aborts with the no-stack-slot panic even though the operand stack
was non-empty at the instruction. -/
theorem c2_store_panics_instead_of_growing :
    runFuel 10 (vmNew storeProbeModule) = some (.error .panicNoStackSlot) :=
  rfl

/-- C6: `1 + 2 * 3` compiles to exactly
`[IConst1, IConst2, IConst3, IMul, IAdd, Return]` and runs to `Int 7`. -/
theorem c6_arith_compiles_and_runs :
    mainCodeOf (compile 50 "m" arithProg) = some [3, 4, 5, 9, 7, 74] ∧
    runOf (compile 50 "m" arithProg) 50 = some (.ok (some (.int 7))) :=
  ⟨rfl, rfl⟩

/-- C9: the empty node list compiles to a module whose `main` chunk is
the single byte `Return` recorded on line 1 (`last_line = 0` plus one),
and running it returns no value rather than an error. -/
theorem c9_empty_module :
    compile 10 "m" [] =
      .ok ⟨"m", [(mainChunkName, ⟨[74], [1], 0⟩)], [], []⟩ ∧
    runOf (compile 10 "m" []) 10 = some (.ok none) :=
  ⟨rfl, rfl⟩

set_option maxRecDepth 100000

/-- C3 counterexample: an if-statement whose then-branch compiles to 256
bytes (128 two-byte statements) is not rejected — compilation succeeds —
and the patched `JumpIfF` immediate is `0`, not the byte distance `256`
from the slot after the immediate (index 3) to the jump target (index
259).  This refutes both halves of the claim at one input. -/
theorem c3_overflow_counterexample :
    mainCodeOf (compile 300 "m" (ifFamily 128)) =
      some (21 :: 66 :: 0 :: (ifBranchBytes 128 ++ [74])) ∧
    (ifBranchBytes 128).length = 256 ∧ ¬ (256 ≤ 255) ∧ (0 : Nat) ≠ 256 :=
  ⟨rfl, rfl, by decide, by decide⟩

/-- C4 counterexample: slicing `"abc"` with start `-5` and no end — the
resolved start `-2` is not clamped to the bounds; it is cast to a huge
`usize`, the range-length subtraction underflows, and the VM aborts with
an arithmetic panic instead of pushing the clamped range (which the
claim's clamping semantics would make `"abc"`). -/
theorem c4_no_clamp_counterexample :
    runOf (compile 100 "m" sliceCexProg) 100 = some (.error .panicArithmetic) ∧
    arrSlcClaimed "abc".data (-5) none = "abc".data ∧
    "abc".data ≠ ([] : List Char) :=
  ⟨rfl, by decide, by decide⟩

/-- C8 counterexample: visiting `func f(a: Int) { func f() { 0 } }` from
the compiler's initial state succeeds but leaves the binding vector as
`[{a, 1}, {f, 0}]` — the parameter descriptor `a` was never popped,
because the nested declaration's `add_chunk("f")` reset the chunk (and
its `num_bindings`) that was counting it.  The claim requires the vector
to be the prior (empty) vector plus exactly the one `f` descriptor. -/
theorem c8_shadowing_counterexample :
    (visitT 50 (.node shadowFnNode) initCState).map (fun p => p.1.module.bindings) =
      .ok [⟨"a", 1⟩, ⟨"f", 0⟩] ∧
    ([⟨"a", 1⟩, ⟨"f", 0⟩] : List BindingDescriptor) ≠
      initCState.module.bindings ++ [⟨"f", 0⟩] :=
  ⟨rfl, by decide⟩

/-! ## Helper lemmas -/

theorem alookup_aupdate_self {α : Type} (k : String) (f : α → α) (l : List (String × α)) :
    alookup k (aupdate k f l) = (alookup k l).map f := by
  induction l with
  | nil => simp [alookup, aupdate]
  | cons p rest ih =>
    obtain ⟨k', v⟩ := p
    by_cases h : k' = k
    · simp [alookup, aupdate, h]
    · simp [alookup, aupdate, h, ih]

theorem alookup_aupdate_ne {α : Type} {c k : String} (h : c ≠ k) (f : α → α)
    (l : List (String × α)) : alookup c (aupdate k f l) = alookup c l := by
  induction l with
  | nil => simp [alookup, aupdate]
  | cons p rest ih =>
    obtain ⟨k', v⟩ := p
    by_cases hk : k' = k
    · subst hk
      have : ¬ k' = c := fun hc => h (hc ▸ rfl)
      simp [alookup, aupdate, this]
    · simp only [aupdate, if_neg hk]
      by_cases hc : k' = c
      · simp [alookup, hc]
      · simp [alookup, hc, ih]

theorem alookup_ainsert_self {α : Type} (k : String) (v : α) (l : List (String × α)) :
    alookup k (ainsert k v l) = some v := by
  induction l with
  | nil => simp [alookup, ainsert]
  | cons p rest ih =>
    obtain ⟨k', v'⟩ := p
    by_cases h : k' = k
    · simp [alookup, ainsert, h]
    · simp [alookup, ainsert, h, ih]

theorem alookup_ainsert_ne {α : Type} {c k : String} (h : c ≠ k) (v : α)
    (l : List (String × α)) : alookup c (ainsert k v l) = alookup c l := by
  induction l with
  | nil =>
    have : ¬ k = c := fun hc => h (hc ▸ rfl)
    simp [alookup, ainsert, this]
  | cons p rest ih =>
    obtain ⟨k', v'⟩ := p
    by_cases hk : k' = k
    · subst hk
      have : ¬ k' = c := fun hc => h (hc ▸ rfl)
      simp [alookup, ainsert, this]
    · simp only [ainsert, if_neg hk]
      by_cases hc : k' = c
      · simp [alookup, hc]
      · simp [alookup, hc, ih]

theorem aupdate_aupdate {α : Type} (k : String) (f g : α → α) (l : List (String × α)) :
    aupdate k g (aupdate k f l) = aupdate k (fun x => g (f x)) l := by
  induction l with
  | nil => simp [aupdate]
  | cons p rest ih =>
    obtain ⟨k', v⟩ := p
    by_cases h : k' = k
    · simp [aupdate, h]
    · simp [aupdate, h, ih]

theorem asUsize_of_nonneg {i : Int} (h0 : 0 ≤ i) (h : i < 2 ^ 64) :
    asUsize i = i.toNat := by
  unfold asUsize
  rw [Int.emod_eq_of_lt h0 (by exact_mod_cast h)]

theorem opcode_toByte_lt (op : Opcode) : op.toByte < 256 := by
  cases op <;> decide

theorem get?_set_self {α : Type} (l : List α) (i : Nat) (a : α) (h : i < l.length) :
    (l.set i a).get? i = some a := by
  induction l generalizing i with
  | nil => simp at h
  | cons x rest ih =>
    cases i with
    | zero => simp [List.set]
    | succ j =>
      simp only [List.set, List.get?]
      exact ih j (by simpa using h)

/-! ### C10: identifier resolution -/

theorem gbiScan_foldl (bds : List BindingDescriptor) (name : String) (i : Nat) :
    gbiScan bds name i =
      (List.range (i + 1)).foldl
        (fun acc j => if matchesName bds name j then j else acc) 0 := by
  induction i with
  | zero => simp [gbiScan, List.range_succ]
  | succ i ih =>
    rw [List.range_succ, List.foldl_append]
    simp only [List.foldl_cons, List.foldl_nil]
    rw [gbiScan, ih]

/-- C10: identifier resolution never reports a missing name.  On a
non-empty binding vector `get_binding_index` returns the highest matching
index (`claimedBindingIndex`, the claim's reading), in particular slot 0
for a name that matches nothing; on the empty vector the
`bindings.len() - 1` underflow is a panic, so compiling a module whose
first node references an identifier aborts with that panic instead of
returning a compilation-failure value. -/
theorem c10_binding_resolution :
    (∀ (bds : List BindingDescriptor) (name : String), bds ≠ [] →
      getBindingIndex bds name = .ok (claimedBindingIndex bds name)) ∧
    (∀ name, getBindingIndex ([] : List BindingDescriptor) name =
      .error .bindingsEmptyUnderflow) ∧
    compile 10 "m" [.identifier 1 "x" .int] = .error .bindingsEmptyUnderflow := by
  refine ⟨?_, fun _ => rfl, rfl⟩
  intro bds name h
  unfold getBindingIndex claimedBindingIndex
  cases hl : bds.length with
  | zero => exact absurd (List.length_eq_zero.mp hl) h
  | succ n =>
    exact congrArg Except.ok (gbiScan_foldl bds name n)

/-- C10 witness: on `[a, b, a]` the name `a` resolves to the highest
matching slot 2, agreeing with the claim-side definition. -/
theorem c10_binding_resolution_witness :
    getBindingIndex [⟨"a", 0⟩, ⟨"b", 0⟩, ⟨"a", 1⟩] "a" = .ok 2 ∧
    claimedBindingIndex [⟨"a", 0⟩, ⟨"b", 0⟩, ⟨"a", 1⟩] "a" = 2 :=
  ⟨(c10_binding_resolution.1 [⟨"a", 0⟩, ⟨"b", 0⟩, ⟨"a", 1⟩] "a" (by decide)).trans rfl,
    rfl⟩

/-! ### C5: ArrLoad -/

/-- C5: executing `ArrLoad` with an `Int` index `i` over an `ArrayObj`
pushes an `OptionObj` that is `None` exactly when `i < -len ∨ i ≥ len`
and otherwise `Some` of the element at the resolved index (`i + len` for
negative `i`); over a `StringObj` it pushes `Some` of the one-character
string at the index resolved against the byte length, or `None` out of
bounds; and the compiled `[1,2,3,4,5][3+1]` runs to `Some(Int 5)`. -/
theorem c5_arrload :
    (∀ (fr : List CallFrame) (m : CompiledModule) (g : List (String × Value))
        (xs : List Value) (i : Int), xs.length < 2 ^ 64 →
      stepOp .ArrLoad ⟨fr, m, [.arrayObj xs, .int i], g⟩ =
        .cont ⟨fr, m, [.optionObj (
          if i < -(xs.length : Int) ∨ (xs.length : Int) ≤ i then none
          else xs.get? (if i < 0 then i + xs.length else i).toNat)], g⟩) ∧
    (∀ (fr : List CallFrame) (m : CompiledModule) (g : List (String × Value))
        (s : String) (i : Int),
      stepOp .ArrLoad ⟨fr, m, [.stringObj s, .int i], g⟩ =
        .cont ⟨fr, m, [.optionObj ((s.data.get?
          (asUsize (if i < 0 then i + (s.utf8ByteSize : Int) else i))).map
            fun c => .stringObj (String.mk [c]))], g⟩) ∧
    runOf (compile 100 "m" indexInstProg) 100 =
      some (.ok (some (.optionObj (some (.int 5))))) := by
  refine ⟨?_, fun fr m g s i => rfl, rfl⟩
  intro fr m g xs i hlen
  show (if i < -(xs.length : Int) ∨ (xs.length : Int) ≤ i then
      StepRes.cont ⟨fr, m, [.optionObj none], g⟩
    else
      match xs.get? (asUsize (if i < 0 then i + (xs.length : Int) else i)) with
      | some x => StepRes.cont ⟨fr, m, [.optionObj (some x)], g⟩
      | none => StepRes.err .panicIndexOOB) = _
  by_cases hout : i < -(xs.length : Int) ∨ (xs.length : Int) ≤ i
  · rw [if_pos hout, if_pos hout]
  · rw [if_neg hout, if_neg hout]
    push_neg at hout
    have h0 : 0 ≤ if i < 0 then i + (xs.length : Int) else i := by
      split <;> omega
    have hlt : (if i < 0 then i + (xs.length : Int) else i) < (xs.length : Int) := by
      split <;> omega
    rw [asUsize_of_nonneg h0 (by omega)]
    have htn : (if i < 0 then i + (xs.length : Int) else i).toNat < xs.length := by
      omega
    cases hx : xs.get? (if i < 0 then i + (xs.length : Int) else i).toNat with
    | none =>
      exact absurd (List.get?_eq_none.mp hx) (by omega)
    | some x => rfl

/-- C5 witness: indexing the one-element array `[Int 7]` at `0` is in
bounds and pushes `Some(Int 7)`. -/
theorem c5_arrload_witness :
    stepOp .ArrLoad ⟨[], CompiledModule.new "w", [.arrayObj [.int 7], .int 0], []⟩ =
      .cont ⟨[], CompiledModule.new "w", [.optionObj (some (.int 7))], []⟩ :=
  (c5_arrload.1 [] (CompiledModule.new "w") [] [.int 7] 0 (by decide)).trans rfl

/-! ### C4: ArrSlc -/

theorem getRangeEndpoints_ok (len : Nat) (start eI sR eR : Int) (endv : Value)
    (hend : endv = .int eI ∨ (endv = .nil ∧ eI = (len : Int)))
    (hsR : sR = if start < 0 then start + (len : Int) else start)
    (heR : eR = if eI < 0 then eI + (len : Int) else eI)
    (h0 : 0 ≤ sR) (hse : sR ≤ eR) (hb : eR < 2 ^ 64) :
    getRangeEndpoints len start endv = .ok (sR.toNat, (eR - sR).toNat) := by
  have hs' : asUsize (if start < 0 then start + (len : Int) else start) = sR.toNat := by
    rw [← hsR]; exact asUsize_of_nonneg h0 (by omega)
  rcases hend with h | ⟨h, he⟩
  · subst h
    show (if asUsize (if eI < 0 then eI + (len : Int) else eI) <
        asUsize (if start < 0 then start + (len : Int) else start)
      then Except.error RunErr.panicArithmetic
      else Except.ok (asUsize (if start < 0 then start + (len : Int) else start),
        asUsize (if eI < 0 then eI + (len : Int) else eI) -
          asUsize (if start < 0 then start + (len : Int) else start))) = _
    have he' : asUsize (if eI < 0 then eI + (len : Int) else eI) = eR.toNat := by
      rw [← heR]; exact asUsize_of_nonneg (by omega) (by omega)
    rw [hs', he', if_neg (by omega)]
    have : eR.toNat - sR.toNat = (eR - sR).toNat := by omega
    rw [this]
  · subst h
    have heI : eI = (len : Int) := he
    have heR' : eR = (len : Int) := by rw [heR, heI]; rw [if_neg (by omega)]
    show (if asUsize (if (len : Int) < 0 then (len : Int) + (len : Int) else (len : Int)) <
        asUsize (if start < 0 then start + (len : Int) else start)
      then Except.error RunErr.panicArithmetic
      else Except.ok (asUsize (if start < 0 then start + (len : Int) else start),
        asUsize (if (len : Int) < 0 then (len : Int) + (len : Int) else (len : Int)) -
          asUsize (if start < 0 then start + (len : Int) else start))) = _
    have he' : asUsize (if (len : Int) < 0 then (len : Int) + (len : Int) else (len : Int)) =
        eR.toNat := by
      rw [if_neg (by omega), heR']
      exact asUsize_of_nonneg (by omega) (by omega)
    rw [hs', he', if_neg (by omega)]
    have : eR.toNat - sR.toNat = (eR - sR).toNat := by omega
    rw [this]

/-- C4 (amended): `ArrSlc` pops end (Int, or the Nil sentinel meaning the
length), then start (Int), then the sequence, and resolves negative
endpoints by adding the length (the byte length for strings); when the
resolved endpoints satisfy `0 ≤ start' ≤ end'` it pushes a fresh
`StringObj`/`ArrayObj` holding the elements from `start'` of length
`end' - start'` (`take` clamps at the sequence's end; there is no
clamping of the endpoints themselves — a still-negative resolved start
wraps as an unsigned cast and the range-length subtraction underflows,
see the counterexample).  In particular `"abc"` sliced with start `-1`
and no end runs to `StringObj("c")`. -/
theorem c4_arrslc_resolved :
    (∀ (fr : List CallFrame) (m : CompiledModule) (g : List (String × Value))
        (s : String) (start eI sR eR : Int) (endv : Value),
      (endv = .int eI ∨ (endv = .nil ∧ eI = (s.utf8ByteSize : Int))) →
      sR = (if start < 0 then start + (s.utf8ByteSize : Int) else start) →
      eR = (if eI < 0 then eI + (s.utf8ByteSize : Int) else eI) →
      0 ≤ sR → sR ≤ eR → eR < 2 ^ 64 →
      stepOp .ArrSlc ⟨fr, m, [.stringObj s, .int start, endv], g⟩ =
        .cont ⟨fr, m,
          [.stringObj (String.mk ((s.data.drop sR.toNat).take ((eR - sR).toNat)))], g⟩) ∧
    (∀ (fr : List CallFrame) (m : CompiledModule) (g : List (String × Value))
        (xs : List Value) (start eI sR eR : Int) (endv : Value),
      (endv = .int eI ∨ (endv = .nil ∧ eI = (xs.length : Int))) →
      sR = (if start < 0 then start + (xs.length : Int) else start) →
      eR = (if eI < 0 then eI + (xs.length : Int) else eI) →
      0 ≤ sR → sR ≤ eR → eR < 2 ^ 64 →
      stepOp .ArrSlc ⟨fr, m, [.arrayObj xs, .int start, endv], g⟩ =
        .cont ⟨fr, m, [.arrayObj ((xs.drop sR.toNat).take ((eR - sR).toNat))], g⟩) ∧
    runOf (compile 100 "m" sliceInstProg) 100 =
      some (.ok (some (.stringObj "c"))) := by
  refine ⟨?_, ?_, rfl⟩
  · intro fr m g s start eI sR eR endv hend hsR heR h0 hse hb
    show (match getRangeEndpoints s.utf8ByteSize start endv with
      | .error e => StepRes.err e
      | .ok (st, ln) =>
        StepRes.cont ⟨fr, m, [.stringObj (String.mk ((s.data.drop st).take ln))], g⟩) = _
    rw [getRangeEndpoints_ok s.utf8ByteSize start eI sR eR endv hend hsR heR h0 hse hb]
  · intro fr m g xs start eI sR eR endv hend hsR heR h0 hse hb
    show (match getRangeEndpoints xs.length start endv with
      | .error e => StepRes.err e
      | .ok (st, ln) => StepRes.cont ⟨fr, m, [.arrayObj ((xs.drop st).take ln)], g⟩) = _
    rw [getRangeEndpoints_ok xs.length start eI sR eR endv hend hsR heR h0 hse hb]

/-- C4 witness: slicing `"abc"` with start `-1` and the Nil sentinel end
resolves to `[2, 3)` and pushes `StringObj("c")`. -/
theorem c4_arrslc_resolved_witness :
    stepOp .ArrSlc ⟨[], CompiledModule.new "w",
        [.stringObj "abc", .int (-1), .nil], []⟩ =
      .cont ⟨[], CompiledModule.new "w", [.stringObj "c"], []⟩ :=
  (c4_arrslc_resolved.1 [] (CompiledModule.new "w") [] "abc" (-1) 3 2 3 .nil
    (Or.inr ⟨rfl, by decide⟩) (by decide) (by decide) (by decide) (by decide)
    (by decide)).trans rfl

/-! ### C7: assignment -/

theorem okBind {ε α β : Type} (a : α) (f : α → Except ε β) :
    (Except.ok a : Except ε α) >>= f = f a := rfl

theorem errBind {ε α β : Type} (e : ε) (f : α → Except ε β) :
    (Except.error e : Except ε α) >>= f = Except.error e := rfl

theorem currentCode?_eq {st : CState} {code : List Nat}
    (h : st.currentCode? = some code) :
    ∃ ch, alookup st.currentChunk st.module.chunks = some ch ∧ ch.code = code := by
  unfold CState.currentCode? at h
  cases hch : alookup st.currentChunk st.module.chunks with
  | none => rw [hch] at h; simp at h
  | some ch =>
    rw [hch] at h
    simp at h
    exact ⟨ch, rfl, h⟩

/-- The bytes `visit_assignment` appends after the RHS: the short
store/load opcodes for slots 0..4, and for any larger slot the long
form — the slot value is pushed as an interned int constant
(`Constant <pool idx>`) before each of `LStore`/`LLoad`, both references
carrying the same pool index. -/
def storeLoadSuffix (idx cidx : Nat) : List Nat :=
  if idx ≤ 4 then [(lstoreOpcode idx).toByte, (lloadOpcode idx).toByte]
  else [Opcode.Constant.toByte, cidx % 256, Opcode.LStore.toByte,
    Opcode.Constant.toByte, cidx % 256, Opcode.LLoad.toByte]

theorem indexOfValue_append_int (cs : List Value) (n : Nat)
    (h : indexOfValue cs (.int n) = none) :
    indexOfValue (cs ++ [.int n]) (.int n) = some cs.length := by
  induction cs with
  | nil =>
    simp [indexOfValue, Value.beq]
  | cons c rest ih =>
    simp only [indexOfValue] at h
    rw [List.cons_append]
    simp only [indexOfValue]
    by_cases hb : Value.beq c (.int n) = true
    · rw [if_pos hb] at h
      cases h
    · rw [if_neg hb] at h ⊢
      cases hio : indexOfValue rest (.int n) with
      | some i =>
        rw [hio] at h
        exact absurd h (by simp)
      | none =>
        rw [ih hio]
        simp

/-- `add_constant` with an `Int` value: the chunk table, current chunk
and binding vector are untouched, and afterwards the pool resolves the
value to the returned index. -/
theorem addConstant_int_spec (st : CState) (n : Nat) :
    (st.addConstant (.int n)).1.currentChunk = st.currentChunk ∧
    (st.addConstant (.int n)).1.module.chunks = st.module.chunks ∧
    (st.addConstant (.int n)).1.module.bindings = st.module.bindings ∧
    indexOfValue (st.addConstant (.int n)).1.module.constants (.int n) =
      some (st.addConstant (.int n)).2 := by
  unfold CState.addConstant CompiledModule.addConstant
  cases hio : indexOfValue st.module.constants (.int n) with
  | some i =>
    exact ⟨rfl, rfl, rfl, hio⟩
  | none =>
    exact ⟨rfl, rfl, rfl, indexOfValue_append_int _ _ hio⟩

/-- One `write_byte` step, tracked through the chunk it extends. -/
theorem writeByte_ex (st : CState) (ch : Chunk) (b line : Nat)
    (hch : alookup st.currentChunk st.module.chunks = some ch) :
    ∃ st', st.writeByte b line = .ok st' ∧
      st'.currentChunk = st.currentChunk ∧
      st'.module.constants = st.module.constants ∧
      st'.module.bindings = st.module.bindings ∧
      alookup st'.currentChunk st'.module.chunks = some (ch.write b line) := by
  refine ⟨{ st with module := { st.module with
    chunks := aupdate st.currentChunk (fun c => c.write b line)
      st.module.chunks } }, ?_, rfl, rfl, rfl, ?_⟩
  · unfold CState.writeByte
    rw [hch]
  · show alookup st.currentChunk (aupdate st.currentChunk _ st.module.chunks) =
      some (ch.write b line)
    rw [alookup_aupdate_self, hch]
    rfl

/-- `write_store_instr` for a slot above 4: emits `Constant <pool idx of
Int slot>` then `LStore`, interning the slot value. -/
theorem writeStoreInstr_long (st : CState) (ch : Chunk) (idx line : Nat)
    (hidx : ¬ idx ≤ 4)
    (hch : alookup st.currentChunk st.module.chunks = some ch) :
    ∃ st' cidx,
      st.writeStoreInstr idx line = .ok st' ∧
      st'.currentChunk = st.currentChunk ∧
      st'.module.bindings = st.module.bindings ∧
      indexOfValue st'.module.constants (.int idx) = some cidx ∧
      alookup st'.currentChunk st'.module.chunks =
        some (((ch.write Opcode.Constant.toByte line).write cidx line).write
          Opcode.LStore.toByte line) := by
  rcases hAC : st.addConstant (.int idx) with ⟨stA, cidx⟩
  have hA := addConstant_int_spec st idx
  rw [hAC] at hA
  dsimp only at hA
  have hchA : alookup stA.currentChunk stA.module.chunks = some ch := by
    rw [hA.1, hA.2.1]
    exact hch
  obtain ⟨stB, hwB, hcurB, hconB, hbinB, hchB⟩ :=
    writeByte_ex stA ch Opcode.Constant.toByte line hchA
  obtain ⟨stC, hwC, hcurC, hconC, hbinC, hchC⟩ :=
    writeByte_ex stB (ch.write Opcode.Constant.toByte line) cidx line hchB
  obtain ⟨stD, hwD, hcurD, hconD, hbinD, hchD⟩ :=
    writeByte_ex stC ((ch.write Opcode.Constant.toByte line).write cidx line)
      Opcode.LStore.toByte line hchC
  have hWC : st.writeConstant (.int idx) line = .ok (stC, cidx) := by
    unfold CState.writeConstant
    rw [hAC]
    show (do
      let st2 ← stA.writeOp Opcode.Constant line
      let st3 ← st2.writeByte cidx line
      Except.ok (st3, cidx)) = Except.ok (stC, cidx)
    rw [show stA.writeOp Opcode.Constant line =
      stA.writeByte Opcode.Constant.toByte line from rfl, hwB, okBind, hwC,
      okBind]
  have hWIC : st.writeIntConstant idx line = .ok stC := by
    unfold CState.writeIntConstant
    rw [if_neg hidx, hWC]
    rfl
  have hWSI : st.writeStoreInstr idx line = .ok stD := by
    unfold CState.writeStoreInstr
    rw [if_neg hidx, hWIC, okBind, show stC.writeOp Opcode.LStore line =
      stC.writeByte Opcode.LStore.toByte line from rfl, hwD]
  refine ⟨stD, cidx, hWSI, ?_, ?_, ?_, hchD⟩
  · rw [hcurD, hcurC, hcurB, hA.1]
  · rw [hbinD, hbinC, hbinB, hA.2.2.1]
  · rw [hconD, hconC, hconB]
    exact hA.2.2.2

/-- `write_load_instr` for a slot above 4, after the store already
interned the slot value: emits `Constant <same pool idx>` then `LLoad`,
leaving the pool unchanged. -/
theorem writeLoadInstr_long (st : CState) (ch : Chunk) (idx cidx line : Nat)
    (hidx : ¬ idx ≤ 4)
    (hch : alookup st.currentChunk st.module.chunks = some ch)
    (hpool : indexOfValue st.module.constants (.int idx) = some cidx) :
    ∃ st', st.writeLoadInstr idx line = .ok st' ∧
      st'.currentChunk = st.currentChunk ∧
      st'.module.constants = st.module.constants ∧
      alookup st'.currentChunk st'.module.chunks =
        some (((ch.write Opcode.Constant.toByte line).write cidx line).write
          Opcode.LLoad.toByte line) := by
  have hAC : st.addConstant (.int idx) = (st, cidx) := by
    unfold CState.addConstant CompiledModule.addConstant
    rw [hpool]
  obtain ⟨stB, hwB, hcurB, hconB, hbinB, hchB⟩ :=
    writeByte_ex st ch Opcode.Constant.toByte line hch
  obtain ⟨stC, hwC, hcurC, hconC, hbinC, hchC⟩ :=
    writeByte_ex stB (ch.write Opcode.Constant.toByte line) cidx line hchB
  obtain ⟨stD, hwD, hcurD, hconD, hbinD, hchD⟩ :=
    writeByte_ex stC ((ch.write Opcode.Constant.toByte line).write cidx line)
      Opcode.LLoad.toByte line hchC
  have hWC : st.writeConstant (.int idx) line = .ok (stC, cidx) := by
    unfold CState.writeConstant
    rw [hAC]
    show (do
      let st2 ← st.writeOp Opcode.Constant line
      let st3 ← st2.writeByte cidx line
      Except.ok (st3, cidx)) = Except.ok (stC, cidx)
    rw [show st.writeOp Opcode.Constant line =
      st.writeByte Opcode.Constant.toByte line from rfl, hwB, okBind, hwC,
      okBind]
  have hWIC : st.writeIntConstant idx line = .ok stC := by
    unfold CState.writeIntConstant
    rw [if_neg hidx, hWC]
    rfl
  have hWLI : st.writeLoadInstr idx line = .ok stD := by
    unfold CState.writeLoadInstr
    rw [if_neg hidx, hWIC, okBind, show stC.writeOp Opcode.LLoad line =
      stC.writeByte Opcode.LLoad.toByte line from rfl, hwD]
  refine ⟨stD, hWLI, ?_, ?_, hchD⟩
  · rw [hcurD, hcurC, hcurB]
  · rw [hconD, hconC, hconB]

/-- C7: visiting `x = e` emits the code of `e`, then the store to `x`'s
resolved slot, then the load from that same slot — byte-exactly for
every slot: the single-opcode forms for slots 0..4, and for larger slots
the long form `Constant <pool idx>, LStore, Constant <pool idx>, LLoad`,
both references carrying the same interned pool index of the slot value;
and at the `VM::store`/`VM::load` level, storing slot `n` from a stack
holding `v` on top and then loading slot `n` leaves `v` both on top of
the stack and in stack slot `n + stack_offset`, for every value `v` —
provided the rebased slot is an existing stack index (the growth case
panics, see C2). -/
theorem c7_assignment :
    (∀ (f : Nat) (line eline : Nat) (x : String) (t : Ty) (e : TypedAstNode)
        (st st1 : CState) (r idx : Nat) (code1 : List Nat),
      visitT f (.node e) st = .ok (st1, r) →
      getBindingIndex st1.module.bindings x = .ok idx →
      st1.currentCode? = some code1 →
      ∃ st3 cidx,
        visitT (f + 1) (.node (.assignment line (.identifier eline x t) e)) st =
          .ok (st3, 0) ∧
        st3.currentCode? = some (code1 ++ storeLoadSuffix idx cidx) ∧
        (4 < idx →
          indexOfValue st3.module.constants (.int idx) = some cidx)) ∧
    (∀ (ip : Nat) (ch : String) (off slot : Nat) (fr : List CallFrame)
        (m : CompiledModule) (g : List (String × Value)) (stack : List Value)
        (v : Value),
      slot + off < stack.length →
      vmStore slot ⟨⟨ip, ch, off⟩ :: fr, m, stack ++ [v], g⟩ =
        .ok ⟨⟨ip, ch, off⟩ :: fr, m, stack.set (slot + off) v, g⟩ ∧
      vmLoad slot ⟨⟨ip, ch, off⟩ :: fr, m, stack.set (slot + off) v, g⟩ =
        .ok ⟨⟨ip, ch, off⟩ :: fr, m, stack.set (slot + off) v ++ [v], g⟩ ∧
      (stack.set (slot + off) v ++ [v]).getLast? = some v ∧
      (stack.set (slot + off) v).get? (slot + off) = some v) := by
  constructor
  · intro f line eline x t e st st1 r idx code1 hvisit hgbi hcode
    obtain ⟨ch, hch, hchcode⟩ := currentCode?_eq hcode
    by_cases hidx : idx ≤ 4
    · refine ⟨{ st1 with module := { st1.module with
        chunks := aupdate st1.currentChunk
          (fun c => (c.write (lstoreOpcode idx).toByte line).write
            (lloadOpcode idx).toByte line) st1.module.chunks } }, 0, ?_, ?_,
        fun hlt => absurd hidx (by omega)⟩
      · have hw1 : st1.writeStoreInstr idx line = .ok { st1 with module := { st1.module with
          chunks := aupdate st1.currentChunk
            (fun c => c.write (lstoreOpcode idx).toByte line) st1.module.chunks } } := by
          unfold CState.writeStoreInstr
          rw [if_pos hidx]
          unfold CState.writeOp CState.writeByte
          rw [hch]
        have hch2 : alookup st1.currentChunk
            (aupdate st1.currentChunk (fun c => c.write (lstoreOpcode idx).toByte line)
              st1.module.chunks) = some (ch.write (lstoreOpcode idx).toByte line) := by
          rw [alookup_aupdate_self, hch]
          rfl
        have hw2 : CState.writeLoadInstr { st1 with module := { st1.module with
            chunks := aupdate st1.currentChunk
              (fun c => c.write (lstoreOpcode idx).toByte line) st1.module.chunks } }
            idx line = .ok { st1 with module := { st1.module with
            chunks := aupdate st1.currentChunk
              (fun c => (c.write (lstoreOpcode idx).toByte line).write
                (lloadOpcode idx).toByte line) st1.module.chunks } } := by
          unfold CState.writeLoadInstr
          rw [if_pos hidx]
          unfold CState.writeOp CState.writeByte
          show (match alookup st1.currentChunk (aupdate st1.currentChunk _ st1.module.chunks) with
            | none => Except.error CErr.missingChunk
            | some _ => _) = _
          rw [hch2]
          simp only [Except.ok.injEq]
          congr 2
          rw [aupdate_aupdate]
        simp only [visitT, okBind, hvisit, hgbi, hw1, hw2]
      · show (alookup st1.currentChunk (aupdate st1.currentChunk _ st1.module.chunks)).map
          (·.code) = _
        rw [alookup_aupdate_self, hch]
        simp [storeLoadSuffix, hidx, Chunk.write, hchcode,
          Nat.mod_eq_of_lt (opcode_toByte_lt _)]
    · obtain ⟨st2, cidx, hWSI, hcur2, hbin2, hpool2, hch2⟩ :=
        writeStoreInstr_long st1 ch idx line hidx hch
      obtain ⟨st3, hWLI, hcur3, hcon3, hch3⟩ :=
        writeLoadInstr_long st2
          (((ch.write Opcode.Constant.toByte line).write cidx line).write
            Opcode.LStore.toByte line) idx cidx line hidx hch2 hpool2
      refine ⟨st3, cidx, ?_, ?_, fun _ => ?_⟩
      · simp only [visitT, okBind, hvisit, hgbi, hWSI, hWLI]
      · unfold CState.currentCode?
        rw [hch3]
        simp [storeLoadSuffix, hidx, Chunk.write, hchcode,
          Nat.mod_eq_of_lt (opcode_toByte_lt _)]
      · rw [hcon3]
        exact hpool2
  · intro ip ch off slot fr m g stack v h
    refine ⟨?_, ?_, List.getLast?_concat _, get?_set_self _ _ _ h⟩
    · unfold vmStore
      simp only [VMState.popExpect, List.getLast?_concat, List.dropLast_concat,
        okBind]
      rw [if_pos h]
    · have hg := get?_set_self stack (slot + off) v h
      rw [List.get?_eq_getElem?] at hg
      simp [vmLoad, VMState.push, hg]

/-- A compiler state whose binding vector resolves `x` to slot 5 (past
the short-opcode range). -/
def c7LongState : CState :=
  ⟨mainChunkName, ⟨"m", [(mainChunkName, Chunk.new)], [],
    [⟨"a", 0⟩, ⟨"b", 0⟩, ⟨"c", 0⟩, ⟨"d", 0⟩, ⟨"e", 0⟩, ⟨"x", 0⟩]⟩, 0⟩

/-- The state after visiting the right-hand side `2` of `x = 2` from
`c7LongState`. -/
def c7MidState : CState :=
  ⟨mainChunkName, ⟨"m", [(mainChunkName, ⟨[4], [1], 0⟩)], [],
    [⟨"a", 0⟩, ⟨"b", 0⟩, ⟨"c", 0⟩, ⟨"d", 0⟩, ⟨"e", 0⟩, ⟨"x", 0⟩]⟩, 0⟩

/-- C7 witness: `x = 2` with `x` resolving to slot 5 emits the RHS byte
then the long-form store/load suffix, and store-then-load of slot 0 on
stack `[9, 5]` leaves `5` on top and in slot 0. -/
theorem c7_assignment_witness :
    (∃ st3 cidx, visitT 6 (.node (.assignment 1 (.identifier 1 "x" .int)
        (.intLit 1 2))) c7LongState = .ok (st3, 0) ∧
      st3.currentCode? = some ([4] ++ storeLoadSuffix 5 cidx) ∧
      (4 < 5 → indexOfValue st3.module.constants (.int 5) = some cidx)) ∧
    (vmStore 0 ⟨[⟨0, mainChunkName, 0⟩], CompiledModule.new "w",
        [.int 9, .int 5], []⟩ =
      .ok ⟨[⟨0, mainChunkName, 0⟩], CompiledModule.new "w", [.int 5], []⟩ ∧
    vmLoad 0 ⟨[⟨0, mainChunkName, 0⟩], CompiledModule.new "w", [.int 5], []⟩ =
      .ok ⟨[⟨0, mainChunkName, 0⟩], CompiledModule.new "w", [.int 5, .int 5], []⟩ ∧
    ([Value.int 5, Value.int 5].getLast? = some (.int 5)) ∧
    ([Value.int 5].get? 0 = some (.int 5))) :=
  ⟨c7_assignment.1 5 1 1 "x" .int (.intLit 1 2) c7LongState
      c7MidState 0 5 [4] rfl rfl rfl,
    c7_assignment.2 0 mainChunkName 0 0 [] (CompiledModule.new "w") [] [.int 9]
      (.int 5) (by decide)⟩

/-! ### C3: jump patching -/

/-- The single-main-chunk compiler state through the emission of
`ifFamily`. -/
def mkSt (code lines : List Nat) (nb : Nat) (cs : List Value)
    (bs : List BindingDescriptor) : CState :=
  ⟨mainChunkName, ⟨"m", [(mainChunkName, ⟨code, lines, nb⟩)], cs, bs⟩, 0⟩

/-- The line table after emitting `n` two-byte statements on line 1. -/
def blockLines : Nat → List Nat → List Nat
  | 0, l => l
  | n + 1, l => blockLines n (bumpLines (bumpLines l 1) 1)

theorem ifBranchBytes_succ (n : Nat) :
    ifBranchBytes (n + 1) = 2 :: 72 :: ifBranchBytes n := by
  simp [ifBranchBytes, List.replicate_succ]

theorem ifBranchBytes_length (n : Nat) : (ifBranchBytes n).length = 2 * n := by
  induction n with
  | zero => rfl
  | succ n ih => rw [ifBranchBytes_succ]; simp [ih]; omega

/-- Emitting the statement-mode branch of `ifFamily n` appends exactly
`n` copies of `IConst0; Pop` to the current chunk, touching nothing
else. -/
theorem ifBlock_emit (n : Nat) : ∀ (code lines : List Nat) (nb : Nat)
    (cs : List Value) (bs : List BindingDescriptor),
    visitT (n + 7) (.block true (List.replicate n (.intLit 1 0)))
        (mkSt code lines nb cs bs) =
      .ok (mkSt (code ++ ifBranchBytes n) (blockLines n lines) nb cs bs, 0) := by
  induction n with
  | zero =>
    intro code lines nb cs bs
    simp [visitT, ifBranchBytes, blockLines]
  | succ n ih =>
    intro code lines nb cs bs
    rw [List.replicate_succ]
    show (do
      let (st1, _) ← visitT (n + 7) (Task.node (TypedAstNode.intLit 1 0))
        (mkSt code lines nb cs bs)
      let st2 ← if true && shouldPopAfterNode (TypedAstNode.intLit 1 0) then
          st1.writeOp Opcode.Pop 1
        else if !(List.replicate n (TypedAstNode.intLit 1 0)).isEmpty &&
            shouldPopAfterNode (TypedAstNode.intLit 1 0) then st1.writeOp Opcode.Pop 1
        else Except.ok st1
      visitT (n + 7) (Task.block true (List.replicate n (TypedAstNode.intLit 1 0))) st2) = _
    have h1 : visitT (n + 7) (.node (.intLit 1 0)) (mkSt code lines nb cs bs) =
        .ok (mkSt (code ++ [2]) (bumpLines lines 1) nb cs bs, 0) := by
      show (do
        let st1 ← (mkSt code lines nb cs bs).writeIntConstant (asU32 0) 1
        (Except.ok (st1, 0) : Except CErr (CState × Nat))) = _
      simp [CState.writeIntConstant, asU32, CState.writeOp, CState.writeByte,
        mkSt, alookup, aupdate, Chunk.write, iconstOpcode, Opcode.toByte, okBind]
    rw [h1, okBind]
    have h2 : (mkSt (code ++ [2]) (bumpLines lines 1) nb cs bs).writeOp .Pop 1 =
        .ok (mkSt (code ++ [2, 72]) (bumpLines (bumpLines lines 1) 1) nb cs bs) := by
      simp [CState.writeOp, CState.writeByte, mkSt, alookup, aupdate, Chunk.write,
        Opcode.toByte]
    simp only [shouldPopAfterNode, Bool.and_true, if_pos, h2, okBind]
    rw [ih]
    rw [ifBranchBytes_succ]
    simp [blockLines, List.append_assoc]

/-! ### One-step unfolding lemmas for the visitor

`visitT` is compiled by well-founded recursion on its fuel, so its arms do
not reduce definitionally; these equations restate each arm for use with
`rw`. -/

theorem vU_intLit (f line : Nat) (n : Int) (st : CState) :
    visitT (f + 1) (.node (.intLit line n)) st = (do
      let st1 ← st.writeIntConstant (asU32 n) line
      (Except.ok (st1, 0) : Except CErr (CState × Nat))) := by
  simp only [visitT]

theorem vU_boolLit (f line : Nat) (b : Bool) (st : CState) :
    visitT (f + 1) (.node (.boolLit line b)) st = (do
      let st1 ← st.writeOp (if b then .T else .F) line
      (Except.ok (st1, 0) : Except CErr (CState × Nat))) := by
  simp only [visitT]

theorem vU_strLit (f line : Nat) (s : String) (st : CState) :
    visitT (f + 1) (.node (.strLit line s)) st = (do
      let (st1, idx) := st.addConstant (.stringObj s)
      let st2 ← st1.writeOp .Constant line
      let st3 ← st2.writeByte idx line
      (Except.ok (st3, 0) : Except CErr (CState × Nat))) := by
  simp only [visitT]

theorem vU_unary (f line : Nat) (op : UnaryOp) (expr : TypedAstNode) (st : CState) :
    visitT (f + 1) (.node (.unary line op expr)) st = (do
      let (st1, _) ← visitT f (.node expr) st
      let st2 ← st1.writeOp (match op with | .minus => .Invert | .negate => .Negate) line
      (Except.ok (st2, 0) : Except CErr (CState × Nat))) := by
  simp only [visitT]

theorem vU_binary (f line : Nat) (typ : Ty) (op : BinaryOp)
    (left right : TypedAstNode) (st : CState) :
    visitT (f + 1) (.node (.binary line typ op left right)) st = (do
      let opc ← binaryOpcode op typ
      let (st1, _) ← visitT f (.node left) st
      let st2 ← st1.writeCoercion typ left.getType left.line
      let (st3, _) ← visitT f (.node right) st2
      let st4 ← st3.writeCoercion typ right.getType right.line
      let st5 ← st4.writeOp opc line
      (Except.ok (st5, 0) : Except CErr (CState × Nat))) := by
  simp only [visitT]

theorem vU_grouped (f line : Nat) (expr : TypedAstNode) (st : CState) :
    visitT (f + 1) (.node (.grouped line expr)) st = visitT f (.node expr) st := by
  simp only [visitT]

theorem vU_array (f line : Nat) (items : List TypedAstNode) (st : CState) :
    visitT (f + 1) (.node (.array line items)) st = (do
      let (st1, _) ← visitT f (.many items) st
      let st2 ← st1.writeIntConstant items.length line
      let st3 ← st2.writeOp .ArrMk line
      (Except.ok (st3, 0) : Except CErr (CState × Nat))) := by
  simp only [visitT]

theorem vU_bindingDecl (f line : Nat) (ident : String) (sd : Nat)
    (expr : Option TypedAstNode) (st : CState) :
    visitT (f + 1) (.node (.bindingDecl line ident sd expr)) st = (do
      let bindingIdx := st.module.bindings.length
      let st1 := st.pushBinding ⟨ident, sd⟩
      let st2 ← st1.incNumBindings
      match expr with
      | none => (Except.ok (st2, 0) : Except CErr (CState × Nat))
      | some e => do
        let (st3, _) ← visitT f (.node e) st2
        let st4 ← st3.writeStoreInstr bindingIdx line
        Except.ok (st4, 0)) := by
  simp only [visitT]

theorem vU_functionDecl (f line : Nat) (name : String) (args : List (Nat × String))
    (body : List TypedAstNode) (sd : Nat) (st : CState) :
    visitT (f + 1) (.node (.functionDecl line name args body sd)) st = (do
      let (st1, constIdx) := st.addConstant (.fn name)
      let st2 ← st1.writeOp .Constant line
      let st3 ← st2.writeByte constIdx line
      let st4 := { st3 with module := st3.module.addChunk name Chunk.new }
      let prev := st4.currentChunk
      let st5 := { st4 with currentChunk := name }
      let st6 ← storeArgs sd args st5
      let (st7, lastLine) ← visitT f (.body 0 body) st6
      let st8 ← st7.writeOp .Return lastLine
      let st9 := { st8 with currentChunk := prev }
      match alookup name st9.module.chunks with
      | none => (Except.error CErr.missingChunk : Except CErr (CState × Nat))
      | some funcChunk => do
        let nb := funcChunk.numBindings
        let st10 := { st9 with module := { st9.module with
          bindings := st9.module.bindings.take (st9.module.bindings.length - nb) } }
        let bindingIdx := st10.module.bindings.length
        let st11 := st10.pushBinding ⟨name, sd⟩
        let st12 ← st11.incNumBindings
        let st13 ← st12.writeStoreInstr bindingIdx line
        Except.ok (st13, 0)) := by
  simp only [visitT]

theorem vU_identifier (f line : Nat) (name : String) (t : Ty) (st : CState) :
    visitT (f + 1) (.node (.identifier line name t)) st = (do
      let idx ← getBindingIndex st.module.bindings name
      let st1 ← st.writeLoadInstr idx line
      (Except.ok (st1, 0) : Except CErr (CState × Nat))) := by
  simp only [visitT]

theorem vU_assignment (f line : Nat) (target expr : TypedAstNode) (st : CState) :
    visitT (f + 1) (.node (.assignment line target expr)) st = (do
      let ident ← match target with
        | .identifier _ n _ => Except.ok n
        | _ => Except.error CErr.unreachableAst
      let (st1, _) ← visitT f (.node expr) st
      let idx ← getBindingIndex st1.module.bindings ident
      let st2 ← st1.writeStoreInstr idx line
      let st3 ← st2.writeLoadInstr idx line
      (Except.ok (st3, 0) : Except CErr (CState × Nat))) := by
  simp only [visitT]

theorem vU_indexing (f line : Nat) (target idx : TypedAstNode) (st : CState) :
    visitT (f + 1) (.node (.indexing line target idx)) st = (do
      let (st1, _) ← visitT f (.node target) st
      let (st2, _) ← visitT f (.node idx) st1
      let st3 ← st2.writeOp .ArrLoad line
      (Except.ok (st3, 0) : Except CErr (CState × Nat))) := by
  simp only [visitT]

theorem vU_indexingRange (f line : Nat) (target : TypedAstNode)
    (start stop : Option TypedAstNode) (st : CState) :
    visitT (f + 1) (.node (.indexingRange line target start stop)) st = (do
      let (st1, _) ← visitT f (.node target) st
      let st2 ← match start with
        | some s => do
          let (st2, _) ← visitT f (.node s) st1
          Except.ok st2
        | none => st1.writeIntConstant 0 line
      let st3 ← match stop with
        | some e => do
          let (st3, _) ← visitT f (.node e) st2
          Except.ok st3
        | none => st2.writeOp .Nil line
      let st4 ← st3.writeOp .ArrSlc line
      (Except.ok (st4, 0) : Except CErr (CState × Nat))) := by
  simp only [visitT]

theorem vU_ifStatement (f line : Nat) (c : TypedAstNode)
    (ib : List TypedAstNode) (eb : Option (List TypedAstNode)) (st : CState) :
    visitT (f + 1) (.node (.ifStatement line c ib eb)) st =
      visitT f (.ifcore true line c ib eb) st := by
  simp only [visitT]

theorem vU_ifExpression (f line : Nat) (c : TypedAstNode)
    (ib : List TypedAstNode) (eb : Option (List TypedAstNode)) (st : CState) :
    visitT (f + 1) (.node (.ifExpression line c ib eb)) st =
      visitT f (.ifcore false line c ib eb) st := by
  simp only [visitT]

theorem vU_invocation (f line : Nat) (target : TypedAstNode)
    (args : List TypedAstNode) (st : CState) :
    visitT (f + 1) (.node (.invocation line target args)) st = (do
      let (st1, _) ← visitT f (.many args) st
      let name ← match target with
        | .identifier _ n _ => Except.ok n
        | _ => Except.error CErr.unreachableAst
      let (st2, _) ← st1.writeConstant (.stringObj name) line
      let st3 ← st2.writeOp .Invoke line
      (Except.ok (st3, 0) : Except CErr (CState × Nat))) := by
  simp only [visitT]

theorem vU_many_nil (f : Nat) (st : CState) :
    visitT (f + 1) (.many []) st = .ok (st, 0) := by
  simp only [visitT]

theorem vU_many_cons (f : Nat) (x : TypedAstNode) (rest : List TypedAstNode)
    (st : CState) :
    visitT (f + 1) (.many (x :: rest)) st = (do
      let (st1, _) ← visitT f (.node x) st
      visitT f (.many rest) st1) := by
  simp only [visitT]

theorem vU_block_nil (f : Nat) (isStmt : Bool) (st : CState) :
    visitT (f + 1) (.block isStmt []) st = .ok (st, 0) := by
  simp only [visitT]

theorem vU_block_cons (f : Nat) (isStmt : Bool) (x : TypedAstNode)
    (rest : List TypedAstNode) (st : CState) :
    visitT (f + 1) (.block isStmt (x :: rest)) st = (do
      let ln := x.line
      let sp := shouldPopAfterNode x
      let (st1, _) ← visitT f (.node x) st
      let st2 ← if isStmt && sp then st1.writeOp .Pop ln
        else if !rest.isEmpty && sp then st1.writeOp .Pop ln
        else Except.ok st1
      visitT f (.block isStmt rest) st2) := by
  simp only [visitT]

theorem vU_body_nil (f lastLine : Nat) (st : CState) :
    visitT (f + 1) (.body lastLine []) st = .ok (st, lastLine) := by
  simp only [visitT]

theorem vU_body_cons (f lastLine : Nat) (x : TypedAstNode)
    (rest : List TypedAstNode) (st : CState) :
    visitT (f + 1) (.body lastLine (x :: rest)) st = (do
      let (st1, _) ← visitT f (.node x) st
      visitT f (.body x.line rest) st1) := by
  simp only [visitT]

theorem vU_toplevel_nil (f lastLine : Nat) (st : CState) :
    visitT (f + 1) (.toplevel lastLine []) st = .ok (st, lastLine) := by
  simp only [visitT]

theorem vU_toplevel_cons (f lastLine : Nat) (x : TypedAstNode)
    (rest : List TypedAstNode) (st : CState) :
    visitT (f + 1) (.toplevel lastLine (x :: rest)) st = (do
      let ln := x.line
      let sp := shouldPopAfterNode x
      let (st1, _) ← visitT f (.node x) st
      let st2 ← if !rest.isEmpty && sp then st1.writeOp .Pop ln else Except.ok st1
      visitT f (.toplevel ln rest) st2) := by
  simp only [visitT]

theorem vU_ifcore (f : Nat) (isStmt : Bool) (line : Nat)
    (condition : TypedAstNode) (ifBlock : List TypedAstNode)
    (elseBlock : Option (List TypedAstNode)) (st : CState) :
    visitT (f + 1) (.ifcore isStmt line condition ifBlock elseBlock) st = (do
      let (st1, _) ← visitT f (.node condition) st
      let st2 ← st1.writeOp .JumpIfF line
      let st3 ← st2.writeByte 0 line
      let jumpIdx ← match st3.currentCode? with
        | some code => Except.ok code.length
        | none => Except.error CErr.missingChunk
      let (st4, _) ← visitT f (.block isStmt ifBlock) st3
      let st5 ← if elseBlock.isSome then do
          let st5a ← st4.writeOp .Jump line
          st5a.writeByte 0 line
        else Except.ok st4
      let code5 ← match st5.currentCode? with
        | some code => Except.ok code
        | none => Except.error CErr.missingChunk
      let ifBlockLen ← if jumpIdx ≤ code5.length
        then Except.ok (code5.length - jumpIdx)
        else Except.error CErr.patchUnderflow
      let st6 ← st5.patchByte (jumpIdx - 1) ifBlockLen
      let jumpIdx2 ← match st6.currentCode? with
        | some code => Except.ok code.length
        | none => Except.error CErr.missingChunk
      match elseBlock with
      | none => (Except.ok (st6, 0) : Except CErr (CState × Nat))
      | some els => do
        let (st7, _) ← visitT f (.block isStmt els) st6
        let code7 ← match st7.currentCode? with
          | some code => Except.ok code
          | none => Except.error CErr.missingChunk
        let elseLen ← if jumpIdx2 ≤ code7.length
          then Except.ok (code7.length - jumpIdx2)
          else Except.error CErr.patchUnderflow
        let st8 ← st7.patchByte (jumpIdx2 - 1) elseLen
        Except.ok (st8, 0)) := by
  simp only [visitT]

/-- C3 (amended): the one-byte branch immediate is patched to the branch
byte-length modulo 256 — overflow is silently truncated, not an emission
error — and equals the exact byte distance from the slot after the
immediate to the jump target precisely when the branch fits in 255 bytes.
Shown for the whole family `ifFamily n` (branch length `2 * n`). -/
theorem c3_truncated_jump (n : Nat) :
    mainCodeOf (compile (n + 10) "m" (ifFamily n)) =
      some (21 :: 66 :: ((2 * n) % 256) :: (ifBranchBytes n ++ [74])) ∧
    (2 * n ≤ 255 → (2 * n) % 256 = 2 * n) := by
  refine ⟨?_, fun h => Nat.mod_eq_of_lt (by omega)⟩
  have hcond : visitT (n + 7) (.node (.boolLit 1 true)) (mkSt [] [] 0 [] []) =
      .ok (mkSt [21] [1] 0 [] [], 0) := by
    rw [show n + 7 = (n + 6) + 1 from rfl, vU_boolLit]
    simp [CState.writeOp, CState.writeByte, mkSt, alookup, aupdate, Chunk.write,
      Opcode.toByte, bumpLines, okBind]
  have hw1 : (mkSt [21] [1] 0 [] []).writeOp .JumpIfF 1 =
      .ok (mkSt [21, 66] [2] 0 [] []) := by
    simp [CState.writeOp, CState.writeByte, mkSt, alookup, aupdate, Chunk.write,
      Opcode.toByte, bumpLines]
  have hw2 : (mkSt [21, 66] [2] 0 [] []).writeByte 0 1 =
      .ok (mkSt [21, 66, 0] [3] 0 [] []) := by
    simp [CState.writeByte, mkSt, alookup, aupdate, Chunk.write, bumpLines]
  have hblock := ifBlock_emit n [21, 66, 0] [3] 0 [] []
  have hcode3 : (mkSt [21, 66, 0] [3] 0 [] []).currentCode? =
      some [21, 66, 0] := by
    simp [CState.currentCode?, mkSt, alookup]
  have hcode : (mkSt ([21, 66, 0] ++ ifBranchBytes n) (blockLines n [3])
      0 [] []).currentCode? = some (21 :: 66 :: 0 :: ifBranchBytes n) := by
    simp [CState.currentCode?, mkSt, alookup]
  have hpatch : (mkSt ([21, 66, 0] ++ ifBranchBytes n) (blockLines n [3])
      0 [] []).patchByte 2 (2 * n) =
      .ok (mkSt (21 :: 66 :: ((2 * n) % 256) :: ifBranchBytes n)
        (blockLines n [3]) 0 [] []) := by
    unfold CState.patchByte
    show (match alookup mainChunkName [(mainChunkName,
        (⟨21 :: 66 :: 0 :: ifBranchBytes n, blockLines n [3], 0⟩ : Chunk))] with
      | none => Except.error CErr.missingChunk
      | some c =>
        if 2 < c.code.length then _ else Except.error CErr.patchIndexOOB) = _
    simp only [alookup, if_pos rfl]
    rw [if_pos (by simp)]
    simp [mkSt, aupdate, List.set]
  have hcodeP : (mkSt (21 :: 66 :: ((2 * n) % 256) :: ifBranchBytes n)
      (blockLines n [3]) 0 [] []).currentCode? =
      some (21 :: 66 :: ((2 * n) % 256) :: ifBranchBytes n) := by
    simp [CState.currentCode?, mkSt, alookup]
  have hifcore : visitT (n + 8)
      (.ifcore true 1 (.boolLit 1 true) (List.replicate n (.intLit 1 0)) none)
      (mkSt [] [] 0 [] []) =
      .ok (mkSt (21 :: 66 :: ((2 * n) % 256) :: ifBranchBytes n)
        (blockLines n [3]) 0 [] [], 0) := by
    rw [show n + 8 = (n + 7) + 1 from rfl, vU_ifcore]
    simp only [hcond, okBind, hw1, hw2, hcode3, hblock, hcode,
      Option.isSome_none, Bool.false_eq_true, if_false]
    split
    case isFalse h =>
      exact absurd (by simp) h
    case isTrue h =>
      try simp only [okBind]
      rw [show ([21, 66, 0] : List Nat).length - 1 = 2 from rfl]
      rw [show (21 :: 66 :: 0 :: ifBranchBytes n).length -
        ([21, 66, 0] : List Nat).length = 2 * n from by simp [ifBranchBytes_length]]
      rw [hpatch]
      simp only [okBind, hcodeP]
  have hnode : visitT (n + 9)
      (.node (.ifStatement 1 (.boolLit 1 true) (List.replicate n (.intLit 1 0)) none))
      (mkSt [] [] 0 [] []) =
      .ok (mkSt (21 :: 66 :: ((2 * n) % 256) :: ifBranchBytes n)
        (blockLines n [3]) 0 [] [], 0) := by
    rw [show n + 9 = (n + 8) + 1 from rfl, vU_ifStatement]
    exact hifcore
  have htop : visitT (n + 10)
      (.toplevel 0 [.ifStatement 1 (.boolLit 1 true)
        (List.replicate n (.intLit 1 0)) none])
      (mkSt [] [] 0 [] []) =
      .ok (mkSt (21 :: 66 :: ((2 * n) % 256) :: ifBranchBytes n)
        (blockLines n [3]) 0 [] [], 1) := by
    rw [show n + 10 = (n + 9) + 1 from rfl, vU_toplevel_cons]
    simp only [hnode, okBind, List.isEmpty_nil, Bool.not_true, Bool.false_and,
      Bool.false_eq_true, if_false, shouldPopAfterNode]
    rw [show n + 9 = (n + 8) + 1 from rfl, vU_toplevel_nil]
    rfl
  show mainCodeOf (do
    let (st, lastLine) ← visitT (n + 10) (Task.toplevel 0 (ifFamily n))
      (mkSt [] [] 0 [] [])
    match alookup mainChunkName st.module.chunks with
    | none => Except.error CErr.missingChunk
    | some _ => Except.ok { st.module with
        chunks := aupdate mainChunkName
          (fun c => c.write Opcode.Return.toByte (lastLine + 1)) st.module.chunks }) = _
  rw [show ifFamily n = [.ifStatement 1 (.boolLit 1 true)
    (List.replicate n (.intLit 1 0)) none] from rfl]
  rw [htop, okBind]
  simp [mainCodeOf, mkSt, alookup, aupdate, Chunk.write, Opcode.toByte]

/-- C3 witness: at `n = 3` the branch is 6 bytes, within range, and the
immediate is exactly 6. -/
theorem c3_truncated_jump_witness :
    mainCodeOf (compile 13 "m" (ifFamily 3)) =
      some [21, 66, 6, 2, 72, 2, 72, 2, 72, 74] ∧ (2 * 3) % 256 = 2 * 3 :=
  ⟨(c3_truncated_jump 3).1.trans rfl, (c3_truncated_jump 3).2 (by decide)⟩

/-! ### C8: binding-vector discipline of function declarations -/

mutual

/-- The chunk-name freshness condition under which the binding-popping
discipline is sound: within the accumulated list `A` of chunks currently
under emission, no function declaration (at any depth) reuses a name from
`A` — `add_chunk` would reset that chunk's in-use `num_bindings`. -/
def namesOkB (A : List String) : TypedAstNode → Bool
  | .intLit _ _ => true
  | .boolLit _ _ => true
  | .strLit _ _ => true
  | .unary _ _ e => namesOkB A e
  | .binary _ _ _ l r => namesOkB A l && namesOkB A r
  | .grouped _ e => namesOkB A e
  | .array _ items => namesOkL A items
  | .bindingDecl _ _ _ none => true
  | .bindingDecl _ _ _ (some e) => namesOkB A e
  | .functionDecl _ name _ body _ => !(A.contains name) && namesOkL (name :: A) body
  | .identifier _ _ _ => true
  | .assignment _ t e => namesOkB A t && namesOkB A e
  | .indexing _ t i => namesOkB A t && namesOkB A i
  | .indexingRange _ t s e => namesOkB A t && namesOkO A s && namesOkO A e
  | .ifStatement _ c ib eb => namesOkB A c && namesOkL A ib && namesOkOL A eb
  | .ifExpression _ c ib eb => namesOkB A c && namesOkL A ib && namesOkOL A eb
  | .invocation _ t args => namesOkB A t && namesOkL A args

def namesOkL (A : List String) : List TypedAstNode → Bool
  | [] => true
  | x :: xs => namesOkB A x && namesOkL A xs

def namesOkO (A : List String) : Option TypedAstNode → Bool
  | none => true
  | some e => namesOkB A e

def namesOkOL (A : List String) : Option (List TypedAstNode) → Bool
  | none => true
  | some l => namesOkL A l

end

def namesOkT (A : List String) : Task → Bool
  | .node n => namesOkB A n
  | .many ns => namesOkL A ns
  | .block _ ns => namesOkL A ns
  | .body _ ns => namesOkL A ns
  | .toplevel _ ns => namesOkL A ns
  | .ifcore _ _ c ib eb => namesOkB A c && namesOkL A ib && namesOkOL A eb

/-- The `num_bindings` of the chunk named `c` (0 when absent). -/
def nbOf (st : CState) (c : String) : Nat :=
  ((alookup c st.module.chunks).map (·.numBindings)).getD 0

/-- The binding-vector bookkeeping invariant of a visitor step under the
active chunk-name list `A`: the current chunk is unchanged, the binding
vector only grew by a suffix whose length equals the growth of the
current chunk's `num_bindings`, and the `num_bindings` of every other
active chunk is untouched. -/
def BindOk (A : List String) (st st' : CState) : Prop :=
  st'.currentChunk = st.currentChunk ∧
  (∃ S, st'.module.bindings = st.module.bindings ++ S ∧
    nbOf st' st.currentChunk = nbOf st st.currentChunk + S.length) ∧
  ∀ c ∈ A, c ≠ st.currentChunk → nbOf st' c = nbOf st c

/-- Operations that touch neither the binding vector nor any chunk's
`num_bindings` nor the current-chunk name. -/
def ChunkNeutral (st st' : CState) : Prop :=
  st'.currentChunk = st.currentChunk ∧
  st'.module.bindings = st.module.bindings ∧
  ∀ c, nbOf st' c = nbOf st c

theorem ChunkNeutral.refl (st : CState) : ChunkNeutral st st :=
  ⟨rfl, rfl, fun _ => rfl⟩

theorem ChunkNeutral.trans {st st1 st2 : CState} (h1 : ChunkNeutral st st1)
    (h2 : ChunkNeutral st1 st2) : ChunkNeutral st st2 :=
  ⟨h2.1.trans h1.1, h2.2.1.trans h1.2.1, fun c => (h2.2.2 c).trans (h1.2.2 c)⟩

theorem ChunkNeutral.bindOk {A : List String} {st st' : CState}
    (h : ChunkNeutral st st') : BindOk A st st' :=
  ⟨h.1, ⟨[], by simp [h.2.1], by simp [h.2.2]⟩,
    fun c _ _ => h.2.2 c⟩

theorem BindOk.dtrans {A : List String} {st st1 st2 : CState}
    (h1 : BindOk A st st1) (h2 : BindOk A st1 st2) : BindOk A st st2 := by
  obtain ⟨hc1, ⟨S1, hb1, hn1⟩, ho1⟩ := h1
  obtain ⟨hc2, ⟨S2, hb2, hn2⟩, ho2⟩ := h2
  refine ⟨hc2.trans hc1, ⟨S1 ++ S2, ?_, ?_⟩, ?_⟩
  · rw [hb2, hb1, List.append_assoc]
  · rw [hc1] at hn2
    rw [hn2, hn1]
    simp [Nat.add_assoc]
  · intro c hc hne
    have := ho2 c hc (by rw [hc1]; exact hne)
    rw [this]
    exact ho1 c hc hne

theorem ChunkNeutral.bindOk_trans {A : List String} {st st1 st2 : CState}
    (h1 : BindOk A st st1) (h2 : ChunkNeutral st1 st2) : BindOk A st st2 :=
  h1.dtrans h2.bindOk

/-! Preservation lemmas for the compiler-state helpers. -/

theorem writeByte_neutral {st st' : CState} {b line : Nat}
    (h : st.writeByte b line = .ok st') : ChunkNeutral st st' := by
  unfold CState.writeByte at h
  cases hch : alookup st.currentChunk st.module.chunks with
  | none => rw [hch] at h; exact absurd h (by simp)
  | some ch =>
    rw [hch] at h
    have hst : st' = { st with module := { st.module with
        chunks := aupdate st.currentChunk (fun c => c.write b line)
          st.module.chunks } } := by
      cases h
      rfl
    subst hst
    refine ⟨rfl, rfl, fun c => ?_⟩
    unfold nbOf
    by_cases hc : c = st.currentChunk
    · subst hc
      rw [show ({ st with module := { st.module with
          chunks := aupdate st.currentChunk (fun c => c.write b line)
            st.module.chunks } } : CState).module.chunks =
          aupdate st.currentChunk (fun c => c.write b line) st.module.chunks
        from rfl]
      rw [alookup_aupdate_self, hch]
      rfl
    · rw [show ({ st with module := { st.module with
          chunks := aupdate st.currentChunk (fun c => c.write b line)
            st.module.chunks } } : CState).module.chunks =
          aupdate st.currentChunk (fun c => c.write b line) st.module.chunks
        from rfl]
      rw [alookup_aupdate_ne hc]

theorem writeOp_neutral {st st' : CState} {op : Opcode} {line : Nat}
    (h : st.writeOp op line = .ok st') : ChunkNeutral st st' :=
  writeByte_neutral h

theorem addConstant_neutral (st : CState) (v : Value) :
    ChunkNeutral st (st.addConstant v).1 := by
  unfold CState.addConstant CompiledModule.addConstant
  cases indexOfValue st.module.constants v <;> exact ⟨rfl, rfl, fun _ => rfl⟩

theorem writeConstant_neutral {st st' : CState} {v : Value} {line idx : Nat}
    (h : st.writeConstant v line = .ok (st', idx)) : ChunkNeutral st st' := by
  unfold CState.writeConstant at h
  rcases hAC : st.addConstant v with ⟨st1, cidx⟩
  rw [hAC] at h
  have hN1 : ChunkNeutral st st1 := by
    have := addConstant_neutral st v
    rwa [hAC] at this
  have h' : (do
      let st2 ← st1.writeOp Opcode.Constant line
      let st3 ← st2.writeByte cidx line
      (Except.ok (st3, cidx) : Except CErr (CState × Nat))) = .ok (st', idx) := h
  cases hw1 : st1.writeOp .Constant line with
  | error e => rw [hw1, errBind] at h'; exact absurd h' (by simp)
  | ok st2 =>
    rw [hw1, okBind] at h'
    cases hw2 : st2.writeByte cidx line with
    | error e => rw [hw2, errBind] at h'; exact absurd h' (by simp)
    | ok st3 =>
      rw [hw2, okBind] at h'
      simp at h'
      obtain ⟨h3, _⟩ := h'
      subst h3
      exact (hN1.trans (writeOp_neutral hw1)).trans (writeByte_neutral hw2)

theorem writeIntConstant_neutral {st st' : CState} {number line : Nat}
    (h : st.writeIntConstant number line = .ok st') : ChunkNeutral st st' := by
  unfold CState.writeIntConstant at h
  by_cases hn : number ≤ 4
  · rw [if_pos hn] at h
    exact writeOp_neutral h
  · rw [if_neg hn] at h
    cases hw : st.writeConstant (.int number) line with
    | error e => rw [hw] at h; exact absurd h (by simp [Except.map])
    | ok p =>
      rw [hw] at h
      simp [Except.map] at h
      subst h
      exact writeConstant_neutral (show st.writeConstant (.int number) line =
        .ok (p.1, p.2) from by rw [hw])

theorem writeStoreInstr_neutral {st st' : CState} {idx line : Nat}
    (h : st.writeStoreInstr idx line = .ok st') : ChunkNeutral st st' := by
  unfold CState.writeStoreInstr at h
  by_cases hn : idx ≤ 4
  · rw [if_pos hn] at h
    exact writeOp_neutral h
  · rw [if_neg hn] at h
    cases hw : st.writeIntConstant idx line with
    | error e => rw [hw, errBind] at h; exact absurd h (by simp)
    | ok st1 =>
      rw [hw, okBind] at h
      exact (writeIntConstant_neutral hw).trans (writeOp_neutral h)

theorem writeLoadInstr_neutral {st st' : CState} {idx line : Nat}
    (h : st.writeLoadInstr idx line = .ok st') : ChunkNeutral st st' := by
  unfold CState.writeLoadInstr at h
  by_cases hn : idx ≤ 4
  · rw [if_pos hn] at h
    exact writeOp_neutral h
  · rw [if_neg hn] at h
    cases hw : st.writeIntConstant idx line with
    | error e => rw [hw, errBind] at h; exact absurd h (by simp)
    | ok st1 =>
      rw [hw, okBind] at h
      exact (writeIntConstant_neutral hw).trans (writeOp_neutral h)

theorem writeCoercion_neutral {st st' : CState} {t1 t2 : Ty} {line : Nat}
    (h : st.writeCoercion t1 t2 line = .ok st') : ChunkNeutral st st' := by
  unfold CState.writeCoercion at h
  match t1, t2 with
  | .int, .float => exact writeOp_neutral h
  | .float, .int => exact writeOp_neutral h
  | .int, .int | .int, .bool | .int, .string | .int, .other
  | .float, .float | .float, .bool | .float, .string | .float, .other
  | .bool, _ | .string, _ | .other, _ =>
    simp at h
    subst h
    exact ChunkNeutral.refl st

theorem patchByte_neutral {st st' : CState} {pos v : Nat}
    (h : st.patchByte pos v = .ok st') : ChunkNeutral st st' := by
  unfold CState.patchByte at h
  cases hch : alookup st.currentChunk st.module.chunks with
  | none => rw [hch] at h; exact absurd h (by simp)
  | some ch =>
    rw [hch] at h
    have h' : (if pos < ch.code.length then
        (Except.ok { st with module := { st.module with
          chunks := aupdate st.currentChunk
            (fun c => { c with code := c.code.set pos (v % 256) })
            st.module.chunks } } : Except CErr CState)
      else Except.error CErr.patchIndexOOB) = .ok st' := h
    clear h
    rename' h' => h
    by_cases hp : pos < ch.code.length
    · rw [if_pos hp] at h
      have hst : st' = { st with module := { st.module with
          chunks := aupdate st.currentChunk
            (fun c => { c with code := c.code.set pos (v % 256) })
            st.module.chunks } } := by
        cases h
        rfl
      subst hst
      refine ⟨rfl, rfl, fun c => ?_⟩
      unfold nbOf
      by_cases hc : c = st.currentChunk
      · subst hc
        show ((alookup st.currentChunk (aupdate st.currentChunk _
          st.module.chunks)).map (·.numBindings)).getD 0 = _
        rw [alookup_aupdate_self, hch]
        rfl
      · show ((alookup c (aupdate st.currentChunk _
          st.module.chunks)).map (·.numBindings)).getD 0 = _
        rw [alookup_aupdate_ne hc]
    · rw [if_neg hp] at h
      exact absurd h (by simp)

theorem incNumBindings_spec {st st' : CState}
    (h : st.incNumBindings = .ok st') :
    st'.currentChunk = st.currentChunk ∧
    st'.module.bindings = st.module.bindings ∧
    nbOf st' st.currentChunk = nbOf st st.currentChunk + 1 ∧
    ∀ c, c ≠ st.currentChunk → nbOf st' c = nbOf st c := by
  unfold CState.incNumBindings at h
  cases hch : alookup st.currentChunk st.module.chunks with
  | none => rw [hch] at h; exact absurd h (by simp)
  | some ch =>
    rw [hch] at h
    have hst : st' = { st with module := { st.module with
        chunks := aupdate st.currentChunk
          (fun c => { c with numBindings := c.numBindings + 1 })
          st.module.chunks } } := by
      cases h
      rfl
    subst hst
    refine ⟨rfl, rfl, ?_, fun c hc => ?_⟩
    · unfold nbOf
      show ((alookup st.currentChunk (aupdate st.currentChunk _
        st.module.chunks)).map (·.numBindings)).getD 0 = _
      rw [alookup_aupdate_self, hch]
      rfl
    · unfold nbOf
      show ((alookup c (aupdate st.currentChunk _
        st.module.chunks)).map (·.numBindings)).getD 0 = _
      rw [alookup_aupdate_ne hc]

theorem pushBinding_spec (st : CState) (d : BindingDescriptor) :
    (st.pushBinding d).currentChunk = st.currentChunk ∧
    (st.pushBinding d).module.bindings = st.module.bindings ++ [d] ∧
    ∀ c, nbOf (st.pushBinding d) c = nbOf st c :=
  ⟨rfl, rfl, fun _ => rfl⟩

theorem bindEq_ok {ε α β : Type} {ma : Except ε α} {f : α → Except ε β} {b : β}
    (h : (ma >>= f) = .ok b) : ∃ a, ma = .ok a ∧ f a = .ok b := by
  cases ma with
  | error e => rw [errBind] at h; exact absurd h (by simp)
  | ok a => rw [okBind] at h; exact ⟨a, rfl, h⟩

/-- The chunk-table effect of `add_chunk name Chunk::new()`. -/
theorem addChunk_nbOf (m : CompiledModule) (name : String) (c : String) :
    nbOf ⟨"x", m.addChunk name Chunk.new, 0⟩ c =
      if c = name then 0 else nbOf ⟨"x", m, 0⟩ c := by
  unfold nbOf CompiledModule.addChunk
  by_cases hc : c = name
  · subst hc
    simp [alookup_ainsert_self, Chunk.new]
  · simp [alookup_ainsert_ne hc, hc]

/-- The parameter loop: appends one descriptor per argument, counts them
all into the current chunk's `num_bindings`, and touches no other
chunk. -/
theorem storeArgs_spec (sd : Nat) : ∀ (args : List (Nat × String)) (st st' : CState),
    storeArgs sd args st = .ok st' →
    st'.currentChunk = st.currentChunk ∧
    (∃ S : List BindingDescriptor,
      st'.module.bindings = st.module.bindings ++ S ∧ S.length = args.length) ∧
    nbOf st' st.currentChunk = nbOf st st.currentChunk + args.length ∧
    ∀ c, c ≠ st.currentChunk → nbOf st' c = nbOf st c := by
  intro args
  induction args with
  | nil =>
    intro st st' h
    rw [storeArgs] at h
    cases h
    exact ⟨rfl, ⟨[], by simp, rfl⟩, rfl, fun _ _ => rfl⟩
  | cons a rest ih =>
    intro st st' h
    obtain ⟨argLine, ident⟩ := a
    rw [storeArgs] at h
    obtain ⟨st2, hw2, h⟩ := bindEq_ok h
    obtain ⟨st3, hw3, h⟩ := bindEq_ok h
    have hInc := incNumBindings_spec hw2
    have hcur2 : st2.currentChunk = st.currentChunk := hInc.1
    have hb2 : st2.module.bindings =
        st.module.bindings ++ [⟨ident, sd + 1⟩] := hInc.2.1
    have hnb2c : nbOf st2 st.currentChunk = nbOf st st.currentChunk + 1 :=
      hInc.2.2.1
    have hnb2o : ∀ c, c ≠ st.currentChunk → nbOf st2 c = nbOf st c :=
      hInc.2.2.2
    have hW := writeStoreInstr_neutral hw3
    have hcur3 : st3.currentChunk = st.currentChunk := hW.1.trans hcur2
    have hRest := ih st3 st' h
    refine ⟨hRest.1.trans hcur3, ?_, ?_, ?_⟩
    · obtain ⟨S, hS, hSl⟩ := hRest.2.1
      refine ⟨⟨ident, sd + 1⟩ :: S, ?_, by simp [hSl]⟩
      rw [hS, hW.2.1, hb2]
      simp
    · have e1 : nbOf st' st.currentChunk = nbOf st3 st.currentChunk + rest.length := by
        have := hRest.2.2.1
        rwa [hcur3] at this
      have e2 : nbOf st3 st.currentChunk = nbOf st2 st.currentChunk :=
        hW.2.2 _
      simp only [List.length_cons]
      omega
    · intro c hc
      have e1 : nbOf st' c = nbOf st3 c := by
        have := hRest.2.2.2 c
        rw [hcur3] at this
        exact this hc
      rw [e1, hW.2.2 c, hnb2o c hc]

/-- The compiler state right after `add_chunk(func_name)` and the switch
of `current_chunk` in `visit_function_decl`. -/
def withFnChunk (st3 : CState) (name : String) : CState :=
  { { st3 with module := st3.module.addChunk name Chunk.new } with
    currentChunk := name }

theorem withFnChunk_nbOf (st3 : CState) (name c : String) :
    nbOf (withFnChunk st3 name) c = if c = name then 0 else nbOf st3 c := by
  unfold nbOf withFnChunk CompiledModule.addChunk
  by_cases hc : c = name
  · subst hc
    simp [alookup_ainsert_self, Chunk.new]
  · simp [alookup_ainsert_ne hc, hc]

/-- The whole effect of `visit_function_decl` on the binding vector and
the `num_bindings` accounting, given the invariant for its body: exactly
one descriptor — the function's own name — is appended, everything the
parameters and the body pushed having been popped back off first. -/
theorem functionDecl_case {f line : Nat} {name : String} {args : List (Nat × String)}
    {body : List TypedAstNode} {sd : Nat} {st st' : CState} {r : Nat}
    {A : List String}
    (hbody : ∀ (st6 st7 : CState) (lastLine : Nat),
      st6.currentChunk = name →
      visitT f (.body 0 body) st6 = .ok (st7, lastLine) →
      BindOk (name :: A) st6 st7)
    (h : visitT (f + 1) (.node (.functionDecl line name args body sd)) st =
      .ok (st', r))
    (hname : name ∉ A) (hA : st.currentChunk ∈ A) :
    st'.currentChunk = st.currentChunk ∧
    st'.module.bindings = st.module.bindings ++ [⟨name, sd⟩] ∧
    nbOf st' st.currentChunk = nbOf st st.currentChunk + 1 ∧
    (∀ c ∈ A, c ≠ st.currentChunk → nbOf st' c = nbOf st c) := by
  have hne : name ≠ st.currentChunk := fun he => hname (he ▸ hA)
  rw [vU_functionDecl] at h
  rcases hAC : st.addConstant (.fn name) with ⟨st1, cidx⟩
  rw [hAC] at h
  have hN1 : ChunkNeutral st st1 := by
    have := addConstant_neutral st (.fn name)
    rwa [hAC] at this
  obtain ⟨st2, hw2, h⟩ := bindEq_ok h
  obtain ⟨st3, hw3, h⟩ := bindEq_ok h
  have hN13 : ChunkNeutral st st3 :=
    (hN1.trans (writeOp_neutral hw2)).trans (writeByte_neutral hw3)
  obtain ⟨st6, hw6, h⟩ := bindEq_ok h
  obtain ⟨⟨st7, lastLine⟩, hw7, h⟩ := bindEq_ok h
  obtain ⟨st8, hw8, h⟩ := bindEq_ok h
  have hN8 : ChunkNeutral st7 st8 := writeOp_neutral hw8
  -- storeArgs facts, re-based onto `withFnChunk st3 name` by defeq
  have spec6 := storeArgs_spec sd args _ st6 hw6
  have a6 : st6.currentChunk = name := spec6.1
  have b6 : ∃ P : List BindingDescriptor,
      st6.module.bindings = st3.module.bindings ++ P ∧ P.length = args.length :=
    spec6.2.1
  have c6 : nbOf st6 name = nbOf (withFnChunk st3 name) name + args.length :=
    spec6.2.2.1
  rw [withFnChunk_nbOf, if_pos rfl] at c6
  have d6 : ∀ c, c ≠ name → nbOf st6 c = nbOf (withFnChunk st3 name) c :=
    spec6.2.2.2
  obtain ⟨P, hP, hPlen⟩ := b6
  -- body facts
  have bo7 := hbody st6 st7 lastLine a6 hw7
  obtain ⟨bo7cur, ⟨M, hM, hMnb⟩, bo7o⟩ := bo7
  rw [a6] at hMnb
  -- the chunk-table lookup of the function chunk
  dsimp only at h
  split at h
  case h_1 heq => exact absurd h (by simp)
  case h_2 funcChunk heq =>
    have hfc : alookup name st8.module.chunks = some funcChunk := heq
    have hnbv : funcChunk.numBindings = nbOf st8 name := by
      unfold nbOf
      rw [hfc]
      rfl
    obtain ⟨st12, hw12, h⟩ := bindEq_ok h
    obtain ⟨st13, hw13, h⟩ := bindEq_ok h
    simp only [Except.ok.injEq, Prod.mk.injEq] at h
    obtain ⟨hst', _⟩ := h
    subst hst'
    have hN13' : ChunkNeutral st12 st13 := writeStoreInstr_neutral hw13
    -- incNumBindings facts, re-based by defeq
    have i12 := incNumBindings_spec hw12
    have i12cur : st12.currentChunk = st3.currentChunk := i12.1
    have i12b : st12.module.bindings =
        (st8.module.bindings.take
          (st8.module.bindings.length - funcChunk.numBindings)) ++ [⟨name, sd⟩] :=
      i12.2.1
    have i12nb : nbOf st12 st3.currentChunk = nbOf st8 st3.currentChunk + 1 :=
      i12.2.2.1
    have i12o : ∀ c, c ≠ st3.currentChunk → nbOf st12 c = nbOf st8 c :=
      i12.2.2.2
    -- num_bindings of the function chunk after the body
    have hnb8name : nbOf st8 name = args.length + M.length := by
      rw [hN8.2.2 name, hMnb, c6]
      omega
    -- the pop loop restores the original binding vector
    have hb8 : st8.module.bindings =
        st.module.bindings ++ (P ++ M) := by
      rw [hN8.2.1, hM, hP, hN13.2.1, List.append_assoc]
    have htake : st8.module.bindings.take
        (st8.module.bindings.length - funcChunk.numBindings) =
        st.module.bindings := by
      rw [hnbv, hnb8name, hb8]
      have hlen : (st.module.bindings ++ (P ++ M)).length -
          (args.length + M.length) = st.module.bindings.length := by
        simp [List.length_append]
        omega
      rw [hlen, List.take_left]
    have hcur3 : st3.currentChunk = st.currentChunk := hN13.1
    refine ⟨?_, ?_, ?_, ?_⟩
    · rw [hN13'.1, i12cur, hcur3]
    · rw [hN13'.2.1, i12b, htake]
    · rw [hN13'.2.2, ← hcur3, i12nb]
      have h87 : nbOf st8 st3.currentChunk = nbOf st7 st3.currentChunk :=
        hN8.2.2 _
      have h76 : nbOf st7 st3.currentChunk = nbOf st6 st3.currentChunk := by
        refine bo7o st3.currentChunk ?_ ?_
        · rw [hcur3]
          exact List.mem_cons_of_mem _ hA
        · rw [a6, hcur3]
          exact fun he => hne he.symm
      have h65 : nbOf st6 st3.currentChunk =
          nbOf (withFnChunk st3 name) st3.currentChunk := by
        refine d6 _ ?_
        rw [hcur3]
        exact fun he => hne he.symm
      rw [h87, h76, h65, withFnChunk_nbOf,
        if_neg (by rw [hcur3]; exact fun he => hne he.symm), hN13.2.2]
    · intro c hc hcne
      have hcname : c ≠ name := fun he => hname (he ▸ hc)
      rw [hN13'.2.2, i12o c (by rw [hcur3]; exact hcne), hN8.2.2 c]
      have h76 : nbOf st7 c = nbOf st6 c := by
        refine bo7o c (List.mem_cons_of_mem _ hc) ?_
        rw [a6]
        exact hcname
      rw [h76, d6 c hcname, withFnChunk_nbOf, if_neg hcname, hN13.2.2]

theorem vU_zero (t : Task) (st : CState) :
    visitT 0 t st = .error .outOfFuel := by
  simp only [visitT]

theorem namesOkT_node (A : List String) (n : TypedAstNode) :
    namesOkT A (.node n) = namesOkB A n := rfl

theorem namesOkT_many (A : List String) (ns : List TypedAstNode) :
    namesOkT A (.many ns) = namesOkL A ns := rfl

theorem namesOkT_block (A : List String) (s : Bool) (ns : List TypedAstNode) :
    namesOkT A (.block s ns) = namesOkL A ns := rfl

theorem namesOkT_body (A : List String) (l : Nat) (ns : List TypedAstNode) :
    namesOkT A (.body l ns) = namesOkL A ns := rfl

theorem namesOkT_toplevel (A : List String) (l : Nat) (ns : List TypedAstNode) :
    namesOkT A (.toplevel l ns) = namesOkL A ns := rfl

theorem namesOkT_ifcore (A : List String) (s : Bool) (l : Nat)
    (c : TypedAstNode) (ib : List TypedAstNode)
    (eb : Option (List TypedAstNode)) :
    namesOkT A (.ifcore s l c ib eb) =
      (namesOkB A c && namesOkL A ib && namesOkOL A eb) := rfl

theorem okPair_eq {α : Type} {st1 st' : α} {k r : Nat}
    (h : (Except.ok (st1, k) : Except CErr (α × Nat)) = .ok (st', r)) :
    st1 = st' := by
  simp only [Except.ok.injEq, Prod.mk.injEq] at h
  exact h.1

theorem not_mem_of_contains_false {A : List String} {n : String}
    (h : A.contains n = false) : n ∉ A := by
  intro hm
  have he : A.elem n = true := List.elem_iff.mpr hm
  have hc : A.contains n = true := he
  rw [h] at hc
  cases hc

/-- The global binding-vector invariant of the visitor: under the
chunk-name freshness condition `namesOkT`, every successful visit leaves
the current chunk unchanged, grows the binding vector only by a suffix
whose length is exactly the growth of the current chunk's
`num_bindings`, and leaves every other active chunk's `num_bindings`
untouched. -/
theorem visit_bindings (f : Nat) : ∀ (t : Task) (A : List String)
    (st st' : CState) (r : Nat),
    st.currentChunk ∈ A → namesOkT A t = true →
    visitT f t st = .ok (st', r) → BindOk A st st' := by
  induction f with
  | zero =>
    intro t A st st' r _ _ h
    rw [vU_zero] at h
    exact absurd h (by simp)
  | succ f ih =>
    intro t A st st' r hA hok h
    cases t with
    | node n =>
      rw [namesOkT_node] at hok
      cases n with
      | intLit line num =>
        rw [vU_intLit] at h
        obtain ⟨st1, hw1, h⟩ := bindEq_ok h
        obtain rfl := okPair_eq h
        exact (writeIntConstant_neutral hw1).bindOk
      | boolLit line b =>
        rw [vU_boolLit] at h
        obtain ⟨st1, hw1, h⟩ := bindEq_ok h
        obtain rfl := okPair_eq h
        exact (writeOp_neutral hw1).bindOk
      | strLit line s =>
        rw [vU_strLit] at h
        rcases hAC : st.addConstant (.stringObj s) with ⟨st1, idx⟩
        rw [hAC] at h
        have hN1 : ChunkNeutral st st1 := by
          have := addConstant_neutral st (.stringObj s)
          rwa [hAC] at this
        obtain ⟨st2, hw2, h⟩ := bindEq_ok h
        obtain ⟨st3, hw3, h⟩ := bindEq_ok h
        obtain rfl := okPair_eq h
        exact ((hN1.trans (writeOp_neutral hw2)).trans
          (writeByte_neutral hw3)).bindOk
      | unary line op expr =>
        simp only [namesOkB] at hok
        rw [vU_unary] at h
        obtain ⟨⟨st1, k1⟩, hw1, h⟩ := bindEq_ok h
        obtain ⟨st2, hw2, h⟩ := bindEq_ok h
        obtain rfl := okPair_eq h
        have b1 := ih (.node expr) A st st1 k1 hA
          ((namesOkT_node A expr).trans hok) hw1
        exact b1.dtrans (writeOp_neutral hw2).bindOk
      | binary line typ op left right =>
        simp only [namesOkB, Bool.and_eq_true] at hok
        rw [vU_binary] at h
        obtain ⟨opc, hopc, h⟩ := bindEq_ok h
        obtain ⟨⟨st1, k1⟩, hw1, h⟩ := bindEq_ok h
        obtain ⟨st2, hw2, h⟩ := bindEq_ok h
        obtain ⟨⟨st3, k3⟩, hw3, h⟩ := bindEq_ok h
        obtain ⟨st4, hw4, h⟩ := bindEq_ok h
        obtain ⟨st5, hw5, h⟩ := bindEq_ok h
        obtain rfl := okPair_eq h
        have b1 := ih (.node left) A st st1 k1 hA
          ((namesOkT_node A left).trans hok.1) hw1
        have n2 := writeCoercion_neutral hw2
        have hA2 : st2.currentChunk ∈ A := by
          rw [n2.1, b1.1]
          exact hA
        have b3 := ih (.node right) A st2 st3 k3 hA2
          ((namesOkT_node A right).trans hok.2) hw3
        exact (((b1.dtrans n2.bindOk).dtrans b3).dtrans
          (writeCoercion_neutral hw4).bindOk).dtrans (writeOp_neutral hw5).bindOk
      | grouped line expr =>
        simp only [namesOkB] at hok
        rw [vU_grouped] at h
        exact ih (.node expr) A st st' r hA
          ((namesOkT_node A expr).trans hok) h
      | array line items =>
        simp only [namesOkB] at hok
        rw [vU_array] at h
        obtain ⟨⟨st1, k1⟩, hw1, h⟩ := bindEq_ok h
        obtain ⟨st2, hw2, h⟩ := bindEq_ok h
        obtain ⟨st3, hw3, h⟩ := bindEq_ok h
        obtain rfl := okPair_eq h
        have b1 := ih (.many items) A st st1 k1 hA
          ((namesOkT_many A items).trans hok) hw1
        exact (b1.dtrans (writeIntConstant_neutral hw2).bindOk).dtrans
          (writeOp_neutral hw3).bindOk
      | bindingDecl line ident sd expr =>
        rw [vU_bindingDecl] at h
        obtain ⟨st2, hw2, h⟩ := bindEq_ok h
        have i2 := incNumBindings_spec hw2
        have i2cur : st2.currentChunk = st.currentChunk := i2.1
        have i2b : st2.module.bindings =
            st.module.bindings ++ [⟨ident, sd⟩] := i2.2.1
        have i2nb : nbOf st2 st.currentChunk = nbOf st st.currentChunk + 1 :=
          i2.2.2.1
        have i2o : ∀ c, c ≠ st.currentChunk → nbOf st2 c = nbOf st c :=
          i2.2.2.2
        have b2 : BindOk A st st2 :=
          ⟨i2cur, ⟨[⟨ident, sd⟩], i2b, by rw [i2nb]; simp⟩,
            fun c _ hc => i2o c hc⟩
        cases expr with
        | none =>
          obtain rfl := okPair_eq h
          exact b2
        | some e =>
          simp only [namesOkB] at hok
          obtain ⟨⟨st3, k3⟩, hw3, h⟩ := bindEq_ok h
          obtain ⟨st4, hw4, h⟩ := bindEq_ok h
          obtain rfl := okPair_eq h
          have hA2 : st2.currentChunk ∈ A := by
            rw [i2cur]
            exact hA
          have b3 := ih (.node e) A st2 st3 k3 hA2
            ((namesOkT_node A e).trans hok) hw3
          exact (b2.dtrans b3).dtrans (writeStoreInstr_neutral hw4).bindOk
      | functionDecl line name args body sd =>
        simp only [namesOkB, Bool.and_eq_true, Bool.not_eq_true'] at hok
        have hname := not_mem_of_contains_false hok.1
        have hbody : ∀ (st6 st7 : CState) (lastLine : Nat),
            st6.currentChunk = name →
            visitT f (.body 0 body) st6 = .ok (st7, lastLine) →
            BindOk (name :: A) st6 st7 :=
          fun st6 st7 ll hc hv =>
            ih (.body 0 body) (name :: A) st6 st7 ll
              (by rw [hc]; exact List.mem_cons_self _ _)
              ((namesOkT_body (name :: A) 0 body).trans hok.2) hv
        have fc := functionDecl_case hbody h hname hA
        exact ⟨fc.1, ⟨[⟨name, sd⟩], fc.2.1, by rw [fc.2.2.1]; simp⟩,
          fun c hc hne => fc.2.2.2 c hc hne⟩
      | identifier line name ty =>
        rw [vU_identifier] at h
        obtain ⟨idx, hidx, h⟩ := bindEq_ok h
        obtain ⟨st1, hw1, h⟩ := bindEq_ok h
        obtain rfl := okPair_eq h
        exact (writeLoadInstr_neutral hw1).bindOk
      | assignment line target expr =>
        simp only [namesOkB, Bool.and_eq_true] at hok
        rw [vU_assignment] at h
        cases target
        case identifier tline tname tty =>
          obtain ⟨nm, hnm, h⟩ := bindEq_ok h
          obtain ⟨⟨st1, k1⟩, hw1, h⟩ := bindEq_ok h
          obtain ⟨idx, hidx, h⟩ := bindEq_ok h
          obtain ⟨st2, hw2, h⟩ := bindEq_ok h
          obtain ⟨st3, hw3, h⟩ := bindEq_ok h
          obtain rfl := okPair_eq h
          have b1 := ih (.node expr) A st st1 k1 hA
            ((namesOkT_node A expr).trans hok.2) hw1
          exact (b1.dtrans (writeStoreInstr_neutral hw2).bindOk).dtrans
            (writeLoadInstr_neutral hw3).bindOk
        all_goals exact absurd (show (Except.error CErr.unreachableAst :
          Except CErr (CState × Nat)) = Except.ok (st', r) from h) (by simp)
      | indexing line target idx =>
        simp only [namesOkB, Bool.and_eq_true] at hok
        rw [vU_indexing] at h
        obtain ⟨⟨st1, k1⟩, hw1, h⟩ := bindEq_ok h
        obtain ⟨⟨st2, k2⟩, hw2, h⟩ := bindEq_ok h
        obtain ⟨st3, hw3, h⟩ := bindEq_ok h
        obtain rfl := okPair_eq h
        have b1 := ih (.node target) A st st1 k1 hA
          ((namesOkT_node A target).trans hok.1) hw1
        have hA1 : st1.currentChunk ∈ A := by
          rw [b1.1]
          exact hA
        have b2 := ih (.node idx) A st1 st2 k2 hA1
          ((namesOkT_node A idx).trans hok.2) hw2
        exact (b1.dtrans b2).dtrans (writeOp_neutral hw3).bindOk
      | indexingRange line target start stop =>
        simp only [namesOkB, Bool.and_eq_true] at hok
        rw [vU_indexingRange] at h
        obtain ⟨⟨st1, k1⟩, hw1, h⟩ := bindEq_ok h
        have b1 := ih (.node target) A st st1 k1 hA
          ((namesOkT_node A target).trans hok.1.1) hw1
        have hA1 : st1.currentChunk ∈ A := by
          rw [b1.1]
          exact hA
        cases start with
        | none =>
          obtain ⟨st2, hw2, h⟩ := bindEq_ok h
          have b2 : BindOk A st1 st2 := (writeIntConstant_neutral hw2).bindOk
          have hA2 : st2.currentChunk ∈ A := by
            rw [b2.1]
            exact hA1
          cases stop with
          | none =>
            obtain ⟨st3, hw3, h⟩ := bindEq_ok h
            obtain ⟨st4, hw4, h⟩ := bindEq_ok h
            obtain rfl := okPair_eq h
            exact ((b1.dtrans b2).dtrans (writeOp_neutral hw3).bindOk).dtrans
              (writeOp_neutral hw4).bindOk
          | some e =>
            simp only [namesOkO] at hok
            obtain ⟨⟨st3a, k3⟩, hw3a, h⟩ := bindEq_ok h
            obtain ⟨st3, heq3, h⟩ := bindEq_ok h
            have hst3 : st3a = st3 := by
              simpa using heq3
            subst hst3
            obtain ⟨st4, hw4, h⟩ := bindEq_ok h
            obtain rfl := okPair_eq h
            have b3 := ih (.node e) A st2 st3a k3 hA2
              ((namesOkT_node A e).trans hok.2) hw3a
            exact ((b1.dtrans b2).dtrans b3).dtrans (writeOp_neutral hw4).bindOk
        | some s =>
          simp only [namesOkO] at hok
          obtain ⟨⟨st2a, k2⟩, hw2a, h⟩ := bindEq_ok h
          obtain ⟨st2, heq2, h⟩ := bindEq_ok h
          have hst2 : st2a = st2 := by
            simpa using heq2
          subst hst2
          have b2 := ih (.node s) A st1 st2a k2 hA1
            ((namesOkT_node A s).trans hok.1.2) hw2a
          have hA2 : st2a.currentChunk ∈ A := by
            rw [b2.1]
            exact hA1
          cases stop with
          | none =>
            obtain ⟨st3, hw3, h⟩ := bindEq_ok h
            obtain ⟨st4, hw4, h⟩ := bindEq_ok h
            obtain rfl := okPair_eq h
            exact ((b1.dtrans b2).dtrans (writeOp_neutral hw3).bindOk).dtrans
              (writeOp_neutral hw4).bindOk
          | some e =>
            simp only [namesOkO] at hok
            obtain ⟨⟨st3a, k3⟩, hw3a, h⟩ := bindEq_ok h
            obtain ⟨st3, heq3, h⟩ := bindEq_ok h
            have hst3 : st3a = st3 := by
              simpa using heq3
            subst hst3
            obtain ⟨st4, hw4, h⟩ := bindEq_ok h
            obtain rfl := okPair_eq h
            have b3 := ih (.node e) A st2a st3a k3 hA2
              ((namesOkT_node A e).trans hok.2) hw3a
            exact ((b1.dtrans b2).dtrans b3).dtrans (writeOp_neutral hw4).bindOk
      | ifStatement line c ib eb =>
        simp only [namesOkB] at hok
        rw [vU_ifStatement] at h
        exact ih (.ifcore true line c ib eb) A st st' r hA
          ((namesOkT_ifcore A true line c ib eb).trans hok) h
      | ifExpression line c ib eb =>
        simp only [namesOkB] at hok
        rw [vU_ifExpression] at h
        exact ih (.ifcore false line c ib eb) A st st' r hA
          ((namesOkT_ifcore A false line c ib eb).trans hok) h
      | invocation line target args =>
        simp only [namesOkB, Bool.and_eq_true] at hok
        rw [vU_invocation] at h
        obtain ⟨⟨st1, k1⟩, hw1, h⟩ := bindEq_ok h
        have b1 := ih (.many args) A st st1 k1 hA
          ((namesOkT_many A args).trans hok.2) hw1
        cases target
        case identifier tline tname tty =>
          obtain ⟨nm, hnm, h⟩ := bindEq_ok h
          obtain ⟨⟨st2, cidx⟩, hw2, h⟩ := bindEq_ok h
          obtain ⟨st3, hw3, h⟩ := bindEq_ok h
          obtain rfl := okPair_eq h
          exact (b1.dtrans (writeConstant_neutral hw2).bindOk).dtrans
            (writeOp_neutral hw3).bindOk
        all_goals exact absurd (show (Except.error CErr.unreachableAst :
          Except CErr (CState × Nat)) = Except.ok (st', r) from h) (by simp)
    | many ns =>
      cases ns with
      | nil =>
        rw [vU_many_nil] at h
        obtain rfl := okPair_eq h
        exact (ChunkNeutral.refl st).bindOk
      | cons x rest =>
        rw [namesOkT_many] at hok
        simp only [namesOkL, Bool.and_eq_true] at hok
        rw [vU_many_cons] at h
        obtain ⟨⟨st1, k1⟩, hw1, h⟩ := bindEq_ok h
        have b1 := ih (.node x) A st st1 k1 hA
          ((namesOkT_node A x).trans hok.1) hw1
        have hA1 : st1.currentChunk ∈ A := by
          rw [b1.1]
          exact hA
        exact b1.dtrans (ih (.many rest) A st1 st' r hA1
          ((namesOkT_many A rest).trans hok.2) h)
    | block isStmt ns =>
      cases ns with
      | nil =>
        rw [vU_block_nil] at h
        obtain rfl := okPair_eq h
        exact (ChunkNeutral.refl st).bindOk
      | cons x rest =>
        rw [namesOkT_block] at hok
        simp only [namesOkL, Bool.and_eq_true] at hok
        rw [vU_block_cons] at h
        obtain ⟨⟨st1, k1⟩, hw1, h⟩ := bindEq_ok h
        have b1 := ih (.node x) A st st1 k1 hA
          ((namesOkT_node A x).trans hok.1) hw1
        have hA1 : st1.currentChunk ∈ A := by
          rw [b1.1]
          exact hA
        try dsimp only at h
        split at h
        · obtain ⟨st2, hw2, h⟩ := bindEq_ok h
          have n2 : ChunkNeutral st1 st2 := writeOp_neutral hw2
          have hA2 : st2.currentChunk ∈ A := by
            rw [n2.1]
            exact hA1
          exact (b1.dtrans n2.bindOk).dtrans (ih (.block isStmt rest) A st2 st' r
            hA2 ((namesOkT_block A isStmt rest).trans hok.2) h)
        · split at h
          · obtain ⟨st2, hw2, h⟩ := bindEq_ok h
            have n2 : ChunkNeutral st1 st2 := writeOp_neutral hw2
            have hA2 : st2.currentChunk ∈ A := by
              rw [n2.1]
              exact hA1
            exact (b1.dtrans n2.bindOk).dtrans (ih (.block isStmt rest) A st2 st'
              r hA2 ((namesOkT_block A isStmt rest).trans hok.2) h)
          · obtain ⟨st2, hw2, h⟩ := bindEq_ok h
            have hst : st1 = st2 := by
              simpa using hw2
            subst hst
            exact b1.dtrans (ih (.block isStmt rest) A st1 st' r hA1
              ((namesOkT_block A isStmt rest).trans hok.2) h)
    | body lastLine ns =>
      cases ns with
      | nil =>
        rw [vU_body_nil] at h
        obtain rfl := okPair_eq h
        exact (ChunkNeutral.refl st).bindOk
      | cons x rest =>
        rw [namesOkT_body] at hok
        simp only [namesOkL, Bool.and_eq_true] at hok
        rw [vU_body_cons] at h
        obtain ⟨⟨st1, k1⟩, hw1, h⟩ := bindEq_ok h
        have b1 := ih (.node x) A st st1 k1 hA
          ((namesOkT_node A x).trans hok.1) hw1
        have hA1 : st1.currentChunk ∈ A := by
          rw [b1.1]
          exact hA
        exact b1.dtrans (ih (.body x.line rest) A st1 st' r hA1
          ((namesOkT_body A x.line rest).trans hok.2) h)
    | toplevel lastLine ns =>
      cases ns with
      | nil =>
        rw [vU_toplevel_nil] at h
        obtain rfl := okPair_eq h
        exact (ChunkNeutral.refl st).bindOk
      | cons x rest =>
        rw [namesOkT_toplevel] at hok
        simp only [namesOkL, Bool.and_eq_true] at hok
        rw [vU_toplevel_cons] at h
        obtain ⟨⟨st1, k1⟩, hw1, h⟩ := bindEq_ok h
        have b1 := ih (.node x) A st st1 k1 hA
          ((namesOkT_node A x).trans hok.1) hw1
        have hA1 : st1.currentChunk ∈ A := by
          rw [b1.1]
          exact hA
        try dsimp only at h
        split at h
        · obtain ⟨st2, hw2, h⟩ := bindEq_ok h
          have n2 : ChunkNeutral st1 st2 := writeOp_neutral hw2
          have hA2 : st2.currentChunk ∈ A := by
            rw [n2.1]
            exact hA1
          exact (b1.dtrans n2.bindOk).dtrans (ih (.toplevel x.line rest) A st2
            st' r hA2 ((namesOkT_toplevel A x.line rest).trans hok.2) h)
        · obtain ⟨st2, hw2, h⟩ := bindEq_ok h
          have hst : st1 = st2 := by
            simpa using hw2
          subst hst
          exact b1.dtrans (ih (.toplevel x.line rest) A st1 st' r hA1
            ((namesOkT_toplevel A x.line rest).trans hok.2) h)
    | ifcore isStmt line c ib eb =>
      rw [namesOkT_ifcore] at hok
      simp only [Bool.and_eq_true] at hok
      rw [vU_ifcore] at h
      obtain ⟨⟨st1, k1⟩, hw1, h⟩ := bindEq_ok h
      obtain ⟨st2, hw2, h⟩ := bindEq_ok h
      obtain ⟨st3, hw3, h⟩ := bindEq_ok h
      have b1 := ih (.node c) A st st1 k1 hA
        ((namesOkT_node A c).trans hok.1.1) hw1
      have n2 := writeOp_neutral hw2
      have n3 := writeByte_neutral hw3
      have hA3 : st3.currentChunk ∈ A := by
        rw [n3.1, n2.1, b1.1]
        exact hA
      try dsimp only at h
      split at h
      · -- the current chunk exists: jump index read
        obtain ⟨jumpIdx, hjeq, h⟩ := bindEq_ok h
        obtain ⟨⟨st4, k4⟩, hw4, h⟩ := bindEq_ok h
        have b4 := ih (.block isStmt ib) A st3 st4 k4 hA3
          ((namesOkT_block A isStmt ib).trans hok.1.2) hw4
        have b014 : BindOk A st st4 :=
          ((b1.dtrans n2.bindOk).dtrans n3.bindOk).dtrans b4
        cases eb with
        | none =>
          obtain ⟨st5, hw5, h⟩ := bindEq_ok h
          have hst5 : st4 = st5 := by
            have h5 : (Except.ok st4 : Except CErr CState) = Except.ok st5 :=
              hw5
            simpa using h5
          subst hst5
          try dsimp only at h
          split at h
          · -- code read back for the patch length
            obtain ⟨c5len, hceq, h⟩ := bindEq_ok h
            try dsimp only at h
            split at h
            · obtain ⟨ifLen, hleq, h⟩ := bindEq_ok h
              obtain ⟨st6, hw6, h⟩ := bindEq_ok h
              try dsimp only at h
              split at h
              · obtain ⟨j2, hj2eq, h⟩ := bindEq_ok h
                obtain rfl := okPair_eq (show (Except.ok (st6, 0) :
                  Except CErr (CState × Nat)) = Except.ok (st', r) from h)
                exact b014.dtrans (patchByte_neutral hw6).bindOk
              · exact absurd (show (Except.error CErr.missingChunk :
                  Except CErr (CState × Nat)) = Except.ok (st', r) from h)
                  (by simp)
            · exact absurd (show (Except.error CErr.patchUnderflow :
                Except CErr (CState × Nat)) = Except.ok (st', r) from h)
                (by simp)
          · exact absurd (show (Except.error CErr.missingChunk :
              Except CErr (CState × Nat)) = Except.ok (st', r) from h)
              (by simp)
        | some els =>
          simp only [namesOkOL] at hok
          obtain ⟨st5a, hw5a, h⟩ := bindEq_ok h
          obtain ⟨st5, hw5b, h⟩ := bindEq_ok h
          have n5 : ChunkNeutral st4 st5 :=
            (writeOp_neutral hw5a).trans (writeByte_neutral hw5b)
          try dsimp only at h
          split at h
          · obtain ⟨c5len, hceq, h⟩ := bindEq_ok h
            try dsimp only at h
            split at h
            · obtain ⟨ifLen, hleq, h⟩ := bindEq_ok h
              obtain ⟨st6, hw6, h⟩ := bindEq_ok h
              have b016 : BindOk A st st6 :=
                (b014.dtrans n5.bindOk).dtrans (patchByte_neutral hw6).bindOk
              have hA6 : st6.currentChunk ∈ A := by
                rw [b016.1]
                exact hA
              try dsimp only at h
              split at h
              · obtain ⟨j2, hj2eq, h⟩ := bindEq_ok h
                obtain ⟨⟨st7, k7⟩, hw7, h⟩ := bindEq_ok h
                have b7 := ih (.block isStmt els) A st6 st7 k7 hA6
                  ((namesOkT_block A isStmt els).trans hok.2) hw7
                try dsimp only at h
                split at h
                · obtain ⟨c7len, hc7eq, h⟩ := bindEq_ok h
                  try dsimp only at h
                  split at h
                  · obtain ⟨elseLen, heleq, h⟩ := bindEq_ok h
                    obtain ⟨st8, hw8, h⟩ := bindEq_ok h
                    obtain rfl := okPair_eq (show (Except.ok (st8, 0) :
                      Except CErr (CState × Nat)) = Except.ok (st', r) from h)
                    exact (b016.dtrans b7).dtrans (patchByte_neutral hw8).bindOk
                  · exact absurd (show (Except.error CErr.patchUnderflow :
                      Except CErr (CState × Nat)) = Except.ok (st', r) from h)
                      (by simp)
                · exact absurd (show (Except.error CErr.missingChunk :
                    Except CErr (CState × Nat)) = Except.ok (st', r) from h)
                    (by simp)
              · exact absurd (show (Except.error CErr.missingChunk :
                  Except CErr (CState × Nat)) = Except.ok (st', r) from h)
                  (by simp)
            · exact absurd (show (Except.error CErr.patchUnderflow :
                Except CErr (CState × Nat)) = Except.ok (st', r) from h)
                (by simp)
          · exact absurd (show (Except.error CErr.missingChunk :
              Except CErr (CState × Nat)) = Except.ok (st', r) from h)
              (by simp)
      · -- the current chunk is missing: the jump-index read fails
        exact absurd (show (Except.error CErr.missingChunk :
          Except CErr (CState × Nat)) = Except.ok (st', r) from h) (by simp)

/-- C8 (amended): for a function declaration whose nested declarations
never reuse the name of a chunk currently under emission (`namesOkB`),
after the visitor finishes the module's binding vector equals exactly the
descriptors present before the declaration, unchanged and in order,
followed by the single new descriptor bearing the function's name: every
parameter and body descriptor appended during emission of the function
chunk has been popped back off, and the name descriptor is appended only
after that removal.  (Without the freshness proviso the claim fails:
`add_chunk` resets the reused chunk's `num_bindings`, see the shadowing
counterexample.) -/
theorem c8_bindings_restored (f line : Nat) (name : String)
    (args : List (Nat × String)) (body : List TypedAstNode) (sd : Nat)
    (st st' : CState) (r : Nat) (A : List String)
    (hA : st.currentChunk ∈ A)
    (hok : namesOkB A (.functionDecl line name args body sd) = true)
    (h : visitT (f + 1) (.node (.functionDecl line name args body sd)) st =
      .ok (st', r)) :
    st'.module.bindings = st.module.bindings ++ [⟨name, sd⟩] := by
  simp only [namesOkB, Bool.and_eq_true, Bool.not_eq_true'] at hok
  have hname := not_mem_of_contains_false hok.1
  have hbody : ∀ (st6 st7 : CState) (lastLine : Nat),
      st6.currentChunk = name →
      visitT f (.body 0 body) st6 = .ok (st7, lastLine) →
      BindOk (name :: A) st6 st7 :=
    fun st6 st7 ll hc hv =>
      visit_bindings f (.body 0 body) (name :: A) st6 st7 ll
        (by rw [hc]; exact List.mem_cons_self _ _)
        ((namesOkT_body (name :: A) 0 body).trans hok.2) hv
  exact (functionDecl_case hbody h hname hA).2.1

/-- A fresh-named function declaration for the C8 witness. -/
def c8WitNode : TypedAstNode :=
  .functionDecl 1 "g" [(1, "a")] [.intLit 1 5] 0

def c8WitRun : Except CErr (CState × Nat) :=
  visitT 20 (.node c8WitNode) initCState

/-- C8 witness: visiting `func g(a) { 5 }` from the initial state leaves
exactly the descriptor `g` on the binding vector. -/
theorem c8_bindings_restored_witness :
    c8WitRun.map (fun p => p.1.module.bindings) =
      .ok [⟨"g", 0⟩] := by
  have hrun : visitT 20 (Task.node c8WitNode) initCState =
      .ok (c8WitRun.toOption.get (by rfl)) := by rfl
  have hb := c8_bindings_restored 19 1 "g" [(1, "a")] [.intLit 1 5] 0
    initCState (c8WitRun.toOption.get (by rfl)).1
    (c8WitRun.toOption.get (by rfl)).2 [mainChunkName]
    (show mainChunkName ∈ [mainChunkName] from List.mem_cons_self _ _)
    (by rfl) hrun
  show (visitT 20 (Task.node c8WitNode) initCState).map
    (fun p => p.1.module.bindings) = .ok [⟨"g", 0⟩]
  rw [hrun]
  simp only [Except.map]
  rw [hb]
  rfl

end Abra
